import Mathlib

/-!
# Verification of the ScrumPointPlanner coordination core

A shallow embedding of the planning-poker server's aggregation functions
(`client/src/lib/cardSystems.ts`, `lib/utils.ts`), the in-memory record store
(`server/storage.ts`), and the WebSocket protocol handlers and session
broadcaster (`server/routes.ts`), together with theorems settling the frozen
specification claims.

Modelling conventions:
* JavaScript numbers are modelled as exact rationals (`ℚ`); the vote values
  that occur in practice (small integers and short decimal literals) are
  represented exactly by doubles, and most of the arithmetic the code performs
  on them (sums of integers, halving, comparison against 0.2/0.4) stays within
  exactly representable territory for the card scales involved.  The one
  operation that leaves it — dividing the vote sum by the vote count in the
  average computation — is modelled by `roundToDouble`, an exact model of
  IEEE 754 binary64 rounding (round to nearest, ties to even), so the rendered
  average agrees with the double the code computes.
* JavaScript `Map`s are modelled as association lists in insertion order:
  `set` on a present key replaces the value in place, `set` on a fresh key
  appends, matching V8's iteration-order guarantees.
* `Object.entries` over a `Record<number, number>` enumerates integer-like
  keys (canonical numeric strings of integers in `[0, 2^32-1)`) in ascending
  numeric order first, then all remaining keys in insertion order; this is
  the ECMA-262 `OrdinaryOwnPropertyKeys` order and is modelled explicitly.
* Timestamps (`new Date()`) are threaded as an abstract `now : Nat`.
* Fallible handlers return `Except String`, the error string being the one
  the handler reports via the `error` event.
-/

namespace ScrumPointPlanner

/-! ## Aggregation functions (cardSystems.ts, utils.ts) -/

/-- `getCardValues` from `cardSystems.ts`: card faces per voting system. -/
def getCardValues (votingSystem : String) : List String :=
  if votingSystem = "fibonacci" then ["0", "1", "2", "3", "5", "8", "13", "21", "?"]
  else if votingSystem = "tshirt" then ["XS", "S", "M", "L", "XL", "XXL", "?"]
  else if votingSystem = "standard" then
    ["0", "1", "2", "3", "4", "5", "6", "7", "8", "9", "10", "?"]
  else ["0", "1", "2", "3", "5", "8", "13", "21", "?"]

/-- `getTShirtValue` from `cardSystems.ts`: the fixed ordinal mapping for
t-shirt sizes; every unrecognized size falls through to the default case 0. -/
def getTShirtValue (size : String) : ℚ :=
  if size = "XS" then 1
  else if size = "S" then 2
  else if size = "M" then 3
  else if size = "L" then 5
  else if size = "XL" then 8
  else if size = "XXL" then 13
  else 0

/-- Digit list to natural number, most significant first. -/
def digitsToNat (ds : List Char) : Nat :=
  ds.foldl (fun n c => 10 * n + (c.toNat - 48)) 0

/-- Model of JavaScript `parseFloat` restricted to the decimal forms that
occur as card values: optional leading whitespace, optional sign, an integer
part and/or a fractional part.  Returns `none` where `parseFloat` returns
`NaN` (no digits at all, e.g. on the `"?"` sentinel or a size letter).
Exponent and `Infinity` forms are not modelled; no card scale produces them. -/
def parseFloat (s : String) : Option ℚ :=
  let cs := s.data.dropWhile (fun c => c.isWhitespace)
  let signAndRest : ℚ × List Char :=
    match cs with
    | '-' :: rest => (-1, rest)
    | '+' :: rest => (1, rest)
    | _ => (1, cs)
  let sign := signAndRest.1
  let cs1 := signAndRest.2
  let intPart := cs1.takeWhile (fun c => c.isDigit)
  let rest := cs1.dropWhile (fun c => c.isDigit)
  let fracPart :=
    match rest with
    | '.' :: r => r.takeWhile (fun c => c.isDigit)
    | _ => []
  if intPart.isEmpty && fracPart.isEmpty then none
  else some (sign * ((digitsToNat intPart : ℚ) +
    (digitsToNat fracPart : ℚ) / (10 : ℚ) ^ fracPart.length))

/-- Fuel-bounded floor of log₂: `natLog2Aux fuel n = ⌊log₂ n⌋` whenever
`fuel ≥ log₂ n` (and `natLog2` passes `n` itself as fuel). -/
def natLog2Aux : Nat → Nat → Nat
  | 0, _ => 0
  | fuel + 1, n => if n ≤ 1 then 0 else natLog2Aux fuel (n / 2) + 1

def natLog2 (n : Nat) : Nat :=
  natLog2Aux n n

/-- `⌊log₂ q⌋` for a positive rational: the exponent `e` with
`2 ^ e ≤ q < 2 ^ (e + 1)`. -/
def ratLog2 (q : ℚ) : ℤ :=
  if 1 ≤ q then (natLog2 (Int.toNat (Int.floor q)) : ℤ)
  else
    let k : ℤ := (natLog2 (Int.toNat (Int.floor q⁻¹)) : ℤ)
    if (2 : ℚ) ^ (-k) ≤ q then -k else -(k + 1)

/-- Nearest integer, ties to even — the IEEE 754 default rounding. -/
def roundToEven (q : ℚ) : ℤ :=
  let f := Int.floor q
  let r := q - (f : ℚ)
  if r < 1 / 2 then f
  else if 1 / 2 < r then f + 1
  else if f % 2 = 0 then f else f + 1

/-- Model of rounding an exact rational to the nearest IEEE 754 binary64
value: scale the magnitude to a 53-bit mantissa and round to nearest, ties to
even.  Finite normal range only: overflow to infinity and subnormal underflow
are not modelled — card-scale arithmetic (integer sums divided by a count
below 2^32) never reaches either. -/
def roundToDouble (q : ℚ) : ℚ :=
  if q = 0 then 0
  else
    let e := ratLog2 |q|
    let m := roundToEven (|q| * (2 : ℚ) ^ (52 - e))
    (if q < 0 then -1 else 1) * (m : ℚ) * (2 : ℚ) ^ (e - 52)

/-- Model of `Number.prototype.toFixed(1)`: extract the sign, then round the
magnitude times ten to the nearest integer, half away from zero (the ECMA-262
tie rule "pick the larger n" applied to the non-negative magnitude), and
render with exactly one fractional digit. -/
def toFixed1 (q : ℚ) : String :=
  let sign := if q < 0 then "-" else ""
  let n : Nat := (Int.floor (|q| * 10 + 1 / 2)).toNat
  sign ++ toString (n / 10) ++ "." ++ toString (n % 10)

/-- Left-pad a digit string with zeros to length `k`. -/
def padZeros (s : String) (k : Nat) : String :=
  String.mk (List.replicate (k - s.length) '0') ++ s

/-- Model of JavaScript `Number.prototype.toString` on the rationals that
arise from card values: integers render without a decimal point, terminating
decimals render with the minimal number of fractional digits (the shortest
round-trip representation a double prints).  Rationals with no terminating
decimal expansion cannot arise from doubles; they get a fraction rendering
that no theorem depends on. -/
def ratToString (q : ℚ) : String :=
  let sign := if q < 0 then "-" else ""
  let x := |q|
  if x.den = 1 then sign ++ toString x.num.toNat
  else
    match (List.range 64).find? (fun k => (x * (10 : ℚ) ^ k).den = 1) with
    | some k =>
        let n := (x * (10 : ℚ) ^ k).num.toNat
        sign ++ toString (n / 10 ^ k) ++ "." ++ padZeros (toString (n % 10 ^ k)) k
    | none => sign ++ toString x.num.toNat ++ "/" ++ toString x.den

/-- Model of `[...votes].sort((a, b) => a - b)`: the ascending sorted
permutation.  A sorted permutation of a multiset of rationals is unique as a
list, so any sorting algorithm realizes the JavaScript result. -/
def sortRats (l : List ℚ) : List ℚ :=
  l.insertionSort (fun a b => a ≤ b)

/-- The distinct values of a list in order of first occurrence — the insertion
order of the keys of the `voteCounts` record built by the `forEach` loop. -/
def firstOccurrencesAux : List ℚ → List ℚ → List ℚ
  | [], _ => []
  | a :: l, seen =>
    if a ∈ seen then firstOccurrencesAux l seen
    else a :: firstOccurrencesAux l (a :: seen)

def firstOccurrences (l : List ℚ) : List ℚ :=
  firstOccurrencesAux l []

/-- Whether a number's canonical string is a JavaScript array-index property
key: a non-negative integer strictly below `2^32 - 1`. -/
def jsIndexKey (q : ℚ) : Bool :=
  q.den = 1 && 0 ≤ q.num && q.num < 4294967295

/-- The order in which `Object.entries(voteCounts)` enumerates the keys of the
counts record: array-index keys in ascending numeric order first, then the
remaining keys in insertion (first-occurrence) order. -/
def jsEntriesKeys (vals : List ℚ) : List ℚ :=
  let distinct := firstOccurrences vals
  sortRats (distinct.filter (fun q => jsIndexKey q)) ++
    distinct.filter (fun q => !jsIndexKey q)

/-- The mode-selection loop of `calculateStatistics`: walk the entries,
keeping the first key whose count strictly exceeds the running maximum. -/
def modeFold (counts : ℚ → Nat) : List ℚ → Option ℚ × Nat → Option ℚ × Nat
  | [], acc => acc
  | k :: ks, acc =>
    modeFold counts ks (if counts k > acc.2 then (some k, counts k) else acc)

/-- `calculateConsensus` from `utils.ts` (`unnamed/part_000`).  The number of
distinct values (`new Set(votes).size`) is the length of the deduplicated
list; `consensusRatio` is distinct values over total votes. -/
def calculateConsensus (votes : List String) : String :=
  if votes.length = 0 then "No votes"
  else if ((votes.dedup.length : ℚ) / (votes.length : ℚ)) ≤ 1 / 5 then "Strong"
  else if ((votes.dedup.length : ℚ) / (votes.length : ℚ)) ≤ 2 / 5 then "Moderate"
  else "Weak"

structure VoteStats where
  average : String
  median : String
  mode : String
deriving Repr, DecidableEq

/-- The `numericVotes` intermediate of `calculateStatistics`: drop the `"?"`
sentinel, map to numbers (ordinal map for the t-shirt scale, `parseFloat`
otherwise), and drop `NaN`s (the `filterMap` drops exactly the values on
which `parseFloat` yields no number; `getTShirtValue` always yields one). -/
def numericVotes (votes : List String) (votingSystem : String) : List ℚ :=
  (votes.filter (fun v => v ≠ "?")).filterMap (fun v =>
    if votingSystem = "tshirt" then some (getTShirtValue v) else parseFloat v)

/-- `calculateStatistics` from `cardSystems.ts`.  The division of the vote
sum by the vote count is the one step of the computation that leaves the
exactly-representable doubles for card-scale (integer) votes, so it is routed
through `roundToDouble`; sums of integer votes and the halving in the even
median are binary-exact and need no rounding. -/
def calculateStatistics (votes : List String) (votingSystem : String) : VoteStats :=
  let nv := numericVotes votes votingSystem
  if nv.length = 0 then ⟨"N/A", "N/A", "N/A"⟩
  else
    let sum := nv.foldl (fun acc val => acc + val) 0
    let average := toFixed1 (roundToDouble (sum / (nv.length : ℚ)))
    let sorted := sortRats nv
    let middle := sorted.length / 2
    let median :=
      if sorted.length % 2 = 0 then
        toFixed1 ((sorted.getD (middle - 1) 0 + sorted.getD middle 0) / 2)
      else ratToString (sorted.getD middle 0)
    let modeResult := modeFold (fun q => nv.count q) (jsEntriesKeys nv) (none, 0)
    let mode :=
      match modeResult.1 with
      | some m => ratToString m
      | none => "N/A"
    ⟨average, median, mode⟩

/-! ## Data model (shared/schema.ts) -/

/-- `Session` row: `currentStory` is nullable text, modelled as
`Option String` (`none` = SQL null / JS `null`/`undefined`). -/
structure Session where
  id : String
  name : String
  createdBy : String
  votingSystem : String
  currentStory : Option String
  active : Bool
  revealed : Bool
  createdAt : Nat
deriving Repr, DecidableEq

structure Participant where
  id : Nat
  sessionId : String
  name : String
  isAdmin : Bool
  connected : Bool
  lastActivity : Nat
deriving Repr, DecidableEq

structure Story where
  id : Nat
  sessionId : String
  title : String
  link : String
  isCompleted : Bool
  createdAt : Nat
deriving Repr, DecidableEq

/-- `Vote` row: `storyId` is nullable text in the schema. -/
structure Vote where
  id : Nat
  sessionId : String
  participantId : Nat
  value : String
  storyId : Option String
  createdAt : Nat
deriving Repr, DecidableEq

/-- `InsertVote`: the fields a caller of `castVote` supplies. -/
structure InsertVote where
  sessionId : String
  participantId : Nat
  value : String
  storyId : Option String
deriving Repr, DecidableEq

/-- JavaScript truthiness of an optional string: `null`, `undefined` and the
empty string are falsy. -/
def truthy : Option String → Bool
  | none => false
  | some s => s ≠ ""

/-! ## In-memory record store (server/storage.ts, class MemStorage)

Each JS `Map` keyed by id is modelled as a list in insertion order together
with its id counter.  `Map.set` on a present key replaces the value in place
(modelled by `List.map` over the id match, which coincides under the
duplicate-free-ids invariant) and on a fresh key appends. -/

structure Storage where
  sessions : List Session
  participants : List Participant
  stories : List Story
  votes : List Vote
  participantIdCounter : Nat
  voteIdCounter : Nat
  storyIdCounter : Nat
deriving Repr, DecidableEq

/-- The empty `MemStorage` built by the constructor. -/
def Storage.empty : Storage :=
  ⟨[], [], [], [], 1, 1, 1⟩

def getSession (st : Storage) (id : String) : Option Session :=
  st.sessions.find? (fun s => s.id == id)

/-- `createSession`: the handler only calls this after checking the id is
free, and `Map.set` on a fresh key appends. -/
def createSession (st : Storage) (id name createdBy votingSystem : String)
    (currentStory : Option String) (now : Nat) : Session × Storage :=
  let session : Session :=
    ⟨id, name, createdBy, votingSystem, currentStory, true, false, now⟩
  (session, { st with sessions := st.sessions ++ [session] })

/-- `updateSession`: merge the partial update `f` into the existing row, or
return `none` leaving the store untouched. -/
def updateSessionF (st : Storage) (id : String) (f : Session → Session) :
    Option Session × Storage :=
  match getSession st id with
  | none => (none, st)
  | some s =>
      (some (f s),
       { st with sessions := st.sessions.map (fun x => if x.id == id then f x else x) })

def getParticipantByName (st : Storage) (sessionId name : String) : Option Participant :=
  st.participants.find? (fun p => p.sessionId == sessionId && p.name == name)

def getSessionParticipants (st : Storage) (sessionId : String) : List Participant :=
  st.participants.filter (fun p => p.sessionId == sessionId)

def addParticipant (st : Storage) (sessionId name : String) (isAdmin : Bool)
    (now : Nat) : Participant × Storage :=
  let p : Participant := ⟨st.participantIdCounter, sessionId, name, isAdmin, true, now⟩
  (p, { st with participants := st.participants ++ [p],
                participantIdCounter := st.participantIdCounter + 1 })

def updateParticipantF (st : Storage) (id : Nat) (f : Participant → Participant) :
    Option Participant × Storage :=
  match st.participants.find? (fun p => p.id == id) with
  | none => (none, st)
  | some p =>
      (some (f p),
       { st with participants := st.participants.map (fun x => if x.id == id then f x else x) })

def getStory (st : Storage) (id : Nat) : Option Story :=
  st.stories.find? (fun s => s.id == id)

def getSessionStories (st : Storage) (sessionId : String) : List Story :=
  st.stories.filter (fun s => s.sessionId == sessionId)

def addStory (st : Storage) (sessionId title link : String) (isCompleted : Bool)
    (now : Nat) : Story × Storage :=
  let s : Story := ⟨st.storyIdCounter, sessionId, title, link, isCompleted, now⟩
  (s, { st with stories := st.stories ++ [s],
                storyIdCounter := st.storyIdCounter + 1 })

def updateStoryF (st : Storage) (id : Nat) (f : Story → Story) :
    Option Story × Storage :=
  match getStory st id with
  | none => (none, st)
  | some s =>
      (some (f s),
       { st with stories := st.stories.map (fun x => if x.id == id then f x else x) })

def getVote (st : Storage) (participantId : Nat) (sessionId : String) : Option Vote :=
  st.votes.find? (fun v => v.participantId == participantId && v.sessionId == sessionId)

def getSessionVotes (st : Storage) (sessionId : String) : List Vote :=
  st.votes.filter (fun v => v.sessionId == sessionId)

/-- `castVote`: update the existing vote's value in place when one exists for
the (participant, session) pair, otherwise append a fresh row. -/
def castVote (st : Storage) (vote : InsertVote) (now : Nat) : Vote × Storage :=
  match getVote st vote.participantId vote.sessionId with
  | some existingVote =>
      let updatedVote := { existingVote with value := vote.value }
      (updatedVote,
       { st with votes := st.votes.map (fun v =>
           if v.id == existingVote.id then updatedVote else v) })
  | none =>
      let newVote : Vote :=
        ⟨st.voteIdCounter, vote.sessionId, vote.participantId, vote.value,
          vote.storyId, now⟩
      (newVote,
       { st with votes := st.votes ++ [newVote],
                 voteIdCounter := st.voteIdCounter + 1 })

/-- `resetVotes`: delete every vote of the session. -/
def resetVotes (st : Storage) (sessionId : String) : Storage :=
  { st with votes := st.votes.filter (fun v => v.sessionId != sessionId) }

/-- Well-formedness the `Map`-backed store maintains: ids are duplicate-free
and below their counter. -/
def StorageWF (st : Storage) : Prop :=
  (st.sessions.map Session.id).Nodup ∧
  (st.participants.map Participant.id).Nodup ∧
  (∀ p ∈ st.participants, p.id < st.participantIdCounter) ∧
  (st.stories.map Story.id).Nodup ∧
  (∀ s ∈ st.stories, s.id < st.storyIdCounter) ∧
  (st.votes.map Vote.id).Nodup ∧
  (∀ v ∈ st.votes, v.id < st.voteIdCounter)

/-- The stored votes of one (session, participant) pair. -/
def votesFor (vs : List Vote) (sessionId : String) (participantId : Nat) : List Vote :=
  vs.filter (fun v => v.sessionId == sessionId && v.participantId == participantId)

/-- The stored participants carrying a given (session, name) pair — the
candidates of `getParticipantByName`. -/
def participantsNamed (ps : List Participant) (sessionId name : String) :
    List Participant :=
  ps.filter (fun p => p.sessionId == sessionId && p.name == name)

/-- A sequence of `castVote` calls by one participant in one session, one call
per value (derived notion used to state the invariant over call sequences;
`handleCastVote` always passes `storyId: null`). -/
def castMany (st : Storage) (sessionId : String) (participantId : Nat)
    (values : List String) (now : Nat) : Storage :=
  values.foldl (fun s val => (castVote s ⟨sessionId, participantId, val, none⟩ now).2) st

/-! ## Protocol handlers (server/routes.ts) -/

/-- A connection-registry entry (`ClientConnection` in routes.ts), without the
raw socket handle, which the registry key carries. -/
structure ClientConnection where
  participant : Option Participant
  sessionId : Option String
deriving Repr, DecidableEq

/-- The voting systems accepted by `votingSystemSchema`. -/
def votingSystems : List String := ["fibonacci", "tshirt", "standard"]

/-- Model of `str.match(/(.*?)\s*\((.*?)\)/)`, the descriptor-parsing regex of
the reset/update handlers.  The leftmost match takes the first `'('` of the
string that is followed by some `')'`; any `')'` later in the string follows
the first `'('` as well, so the match exists exactly when the first `'('` has
a `')'` after it.  Group 1 is then the prefix before that `'('` with the
whitespace run immediately before the `'('` absorbed by the greedy `\s*`
(lazy group 1 is as short as possible), and group 2 is the text up to the
first `')'` after the `'('` (lazy group 2 is as short as possible). -/
def parseStoryDescriptor (s : String) : Option (String × String) :=
  match s.data.findIdx? (fun c => c = '(') with
  | none => none
  | some p =>
      let afterParen := s.data.drop (p + 1)
      match afterParen.findIdx? (fun c => c = ')') with
      | none => none
      | some q =>
          let title := ((s.data.take p).reverse.dropWhile (fun c => c.isWhitespace)).reverse
          some (String.mk title, String.mk (afterParen.take q))

/-- The payload fields `handleJoinSession` reads; absent string fields are
`none`. `genId` stands in for the `nanoid(6).toUpperCase()` fallback id. -/
structure JoinPayload where
  sessionId : Option String
  name : String
  isAdmin : Bool
  sessionName : Option String
  votingSystem : Option String
deriving Repr, DecidableEq

/-- `handleJoinSession`: create a new session (admin supplying session name
and voting system) or join an existing one, reactivating a disconnected
same-name participant instead of duplicating it and rejecting a connected
duplicate name. -/
def handleJoinSession (st : Storage) (p : JoinPayload) (genId : String)
    (now : Nat) : Except String (Storage × ClientConnection) :=
  if p.name = "" then .error "Participant name is required"
  else if p.isAdmin && truthy p.sessionName && truthy p.votingSystem then
    if p.votingSystem.getD "" ∈ votingSystems then
      let newSessionId := if truthy p.sessionId then p.sessionId.getD "" else genId
      match getSession st newSessionId with
      | some _ => .error "Session already exists"
      | none =>
          let st₁ := (createSession st newSessionId (p.sessionName.getD "")
            p.name (p.votingSystem.getD "") (some "") now).2
          let r := addParticipant st₁ newSessionId p.name true now
          .ok (r.2, ⟨some r.1, some newSessionId⟩)
    else .error "Invalid session data"
  else
    if truthy p.sessionId = false then .error "Session ID is required"
    else
      let sid := p.sessionId.getD ""
      match getSession st sid with
      | none => .error "Session not found"
      | some _ =>
          match getParticipantByName st sid p.name with
          | some existingParticipant =>
              if existingParticipant.connected then
                .error "A participant with this name already exists in the session"
              else
                let st₁ := (updateParticipantF st existingParticipant.id
                  (fun q => { q with connected := true })).2
                .ok (st₁, ⟨some { existingParticipant with connected := true }, some sid⟩)
          | none =>
              let r := addParticipant st sid p.name false now
              .ok (r.2, ⟨some r.1, some sid⟩)

/-- `handleLeaveSession`: mark the bound participant disconnected and unbind. -/
def handleLeaveSession (st : Storage) (client : ClientConnection) :
    Except String (Storage × ClientConnection) :=
  match client.participant, client.sessionId with
  | some pa, some _ =>
      .ok ((updateParticipantF st pa.id (fun q => { q with connected := false })).2,
        ⟨none, none⟩)
  | _, _ => .error "Not in a session"

/-- `handleCastVote`: upsert the bound participant's vote (`storyId: null`). -/
def handleCastVote (st : Storage) (client : ClientConnection) (value : String)
    (now : Nat) : Except String (Storage × ClientConnection) :=
  match client.participant, client.sessionId with
  | some pa, some sid =>
      if value = "" then .error "Vote value is required"
      else .ok ((castVote st ⟨sid, pa.id, value, none⟩ now).2, client)
  | _, _ => .error "Not in a session"

/-- `handleRevealVotes`: set the bound session's revealed flag. -/
def handleRevealVotes (st : Storage) (client : ClientConnection) :
    Except String (Storage × ClientConnection) :=
  match client.participant, client.sessionId with
  | some _, some sid =>
      let r := updateSessionF st sid (fun s => { s with revealed := true })
      match r.1 with
      | none => .error "Session not found"
      | some _ => .ok (r.2, client)
  | _, _ => .error "Not in a session"

/-- The story the reset handler marks completed: defined only when the
session's current-story descriptor is truthy and parses under the descriptor
regex, as the first not-yet-completed story of the session with the parsed
title. -/
def matchingCurrentStory (st : Storage) (sid : String) (session : Session) :
    Option Story :=
  if truthy session.currentStory then
    match parseStoryDescriptor (session.currentStory.getD "") with
    | some (storyTitle, _) =>
        (getSessionStories st sid).find?
          (fun s => s.title == storyTitle && !s.isCompleted)
    | none => none
  else none

/-- `handleResetVoting`: mark the matching current story (if any) completed,
delete the session's votes, clear `revealed` and `currentStory`. -/
def handleResetVoting (st : Storage) (client : ClientConnection) :
    Except String (Storage × ClientConnection) :=
  match client.participant, client.sessionId with
  | some _, some sid =>
      match getSession st sid with
      | none => .error "Session not found"
      | some session =>
          let st₁ :=
            match matchingCurrentStory st sid session with
            | some currentStory =>
                (updateStoryF st currentStory.id (fun s => { s with isCompleted := true })).2
            | none => st
          let st₂ := resetVotes st₁ sid
          let r := updateSessionF st₂ sid
            (fun s => { s with revealed := false, currentStory := none })
          match r.1 with
          | none => .error "Failed to update session"
          | some _ => .ok (r.2, client)
  | _, _ => .error "Not in a session"

/-- `handleAddStory`: admin-only creation of a not-completed story. -/
def handleAddStory (st : Storage) (client : ClientConnection) (title link : String)
    (now : Nat) : Except String (Storage × ClientConnection) :=
  match client.participant, client.sessionId with
  | some pa, some sid =>
      if !pa.isAdmin then .error "Only administrators can add stories"
      else if title = "" ∨ link = "" then .error "Title and link are required"
      else .ok ((addStory st sid title link false now).2, client)
  | _, _ => .error "Not in a session"

/-- The shared tail of the two story-update paths: after a story row was
edited, refresh the session's current-story descriptor when the edited story
was the current one (matching on the parsed title); `revealed` is untouched. -/
def refreshCurrentStoryDescriptor (st : Storage) (sid : String)
    (existingTitle : String) (updatedStory : Story) : Storage :=
  match getSession st sid with
  | none => st
  | some session =>
      if truthy session.currentStory then
        match parseStoryDescriptor (session.currentStory.getD "") with
        | some (currentTitle, _) =>
            if currentTitle = existingTitle then
              let descr := updatedStory.title ++ " (" ++ updatedStory.link ++ ")"
              (updateSessionF st sid (fun s => { s with currentStory := some descr })).2
            else st
        | none => st
      else st

/-- JS truthiness of the numeric `storyId` payload field: absent or 0 is
falsy. -/
def storyIdTruthy : Option Nat → Bool
  | some i => i != 0
  | none => false

/-- `handleSetStory`: admin-only.  With `update` and a truthy `storyId` it
edits the story row (and possibly the session descriptor) without touching
`revealed`; otherwise (the regular path) it sets the session's current story
to the raw payload string, clears `revealed`, and deletes the session's
votes. -/
def handleSetStory (st : Storage) (client : ClientConnection) (story : String)
    (storyId : Option Nat) (update : Bool) :
    Except String (Storage × ClientConnection) :=
  match client.participant, client.sessionId with
  | some pa, some sid =>
      if !pa.isAdmin then .error "Only administrators can change the story"
      else if update && storyIdTruthy storyId then
        match getStory st (storyId.getD 0) with
        | none => .error "Story not found"
        | some existingStory =>
            if existingStory.sessionId ≠ sid then .error "Story not found"
            else
              match parseStoryDescriptor story with
              | none => .error "Invalid story format"
              | some (title, link) =>
                  let r := updateStoryF st (storyId.getD 0)
                    (fun s => { s with title := title.trim, link := link.trim })
                  match r.1 with
                  | none => .error "Failed to update story"
                  | some updatedStory =>
                      .ok (refreshCurrentStoryDescriptor r.2 sid existingStory.title
                        updatedStory, client)
      else
        let r := updateSessionF st sid
          (fun s => { s with currentStory := some story, revealed := false })
        match r.1 with
        | none => .error "Session not found"
        | some _ => .ok (resetVotes r.2 sid, client)
  | _, _ => .error "Not in a session"

/-- `handleSetCurrentStory`: admin-only; derive the descriptor from the chosen
story, clear `revealed`, delete the session's votes. -/
def handleSetCurrentStory (st : Storage) (client : ClientConnection)
    (storyId : Nat) : Except String (Storage × ClientConnection) :=
  match client.participant, client.sessionId with
  | some pa, some sid =>
      if !pa.isAdmin then .error "Only administrators can set the current story"
      else
        match getStory st storyId with
        | none => .error "Story not found"
        | some story =>
            if story.sessionId ≠ sid then .error "Story not found"
            else
              let r := updateSessionF st sid (fun s => { s with
                currentStory := some (story.title ++ " (" ++ story.link ++ ")"),
                revealed := false })
              match r.1 with
              | none => .error "Session not found"
              | some _ => .ok (resetVotes r.2 sid, client)
  | _, _ => .error "Not in a session"

/-- `handleUpdateStory`: admin-only story edit; refreshes the session's
current-story descriptor when needed, `revealed` untouched. -/
def handleUpdateStory (st : Storage) (client : ClientConnection) (storyId : Nat)
    (title link : String) : Except String (Storage × ClientConnection) :=
  match client.participant, client.sessionId with
  | some pa, some sid =>
      if !pa.isAdmin then .error "Only administrators can update stories"
      else if title = "" ∨ link = "" then .error "Title and link are required"
      else
        match getStory st storyId with
        | none => .error "Story not found"
        | some existingStory =>
            if existingStory.sessionId ≠ sid then .error "Story not found"
            else
              let r := updateStoryF st storyId
                (fun s => { s with title := title.trim, link := link.trim })
              match r.1 with
              | none => .error "Failed to update story"
              | some updatedStory =>
                  .ok (refreshCurrentStoryDescriptor r.2 sid existingStory.title
                    updatedStory, client)
  | _, _ => .error "Not in a session"

/-! ## Connection registry, broadcaster and event loop -/

/-- A transport connection handle: identity plus whether `readyState` is
`OPEN`. -/
structure Socket where
  id : Nat
  isOpen : Bool
deriving Repr, DecidableEq

/-- `broadcastToSession`: the sockets actually sent the message — every
registered connection whose binding matches the session, that is not the
excluded socket, and whose socket is open. -/
def broadcastRecipients (clients : List (Socket × ClientConnection))
    (sessionId : String) (exclude : Option Socket) : List Socket :=
  (clients.filter (fun e =>
    e.2.sessionId == some sessionId && some e.1 != exclude && e.1.isOpen)).map
    (fun e => e.1)

/-- The inbound events of the protocol state machine, tagged with the
connection handle they arrive on.  `connect`/`disconnect` are the transport
events; the rest carry the payload fields the handlers read. -/
inductive Event where
  | connect (conn : Nat)
  | disconnect (conn : Nat)
  | joinSession (conn : Nat) (p : JoinPayload) (genId : String)
  | leaveSession (conn : Nat)
  | castVoteEv (conn : Nat) (value : String)
  | revealVotes (conn : Nat)
  | resetVoting (conn : Nat)
  | setStory (conn : Nat) (story : String) (storyId : Option Nat) (update : Bool)
  | addStoryEv (conn : Nat) (title link : String)
  | getStories (conn : Nat)
  | setCurrentStory (conn : Nat) (storyId : Nat)
  | updateStoryEv (conn : Nat) (storyId : Nat) (title link : String)
deriving Repr, DecidableEq

instance : Inhabited Event := ⟨Event.getStories 0⟩

/-- Whole-server state: the record store plus the connection registry (socket
openness does not influence state transitions, so registry keys are bare
handles here). -/
structure ServerState where
  storage : Storage
  clients : List (Nat × ClientConnection)
deriving Repr, DecidableEq

def findClient (cs : List (Nat × ClientConnection)) (conn : Nat) :
    Option ClientConnection :=
  (cs.find? (fun e => e.1 == conn)).map (fun e => e.2)

/-- `Map.set` on the registry: replace in place or append. -/
def setClient (cs : List (Nat × ClientConnection)) (conn : Nat)
    (c : ClientConnection) : List (Nat × ClientConnection) :=
  if cs.any (fun e => e.1 == conn) then
    cs.map (fun e => if e.1 == conn then (conn, c) else e)
  else cs ++ [(conn, c)]

def removeClient (cs : List (Nat × ClientConnection)) (conn : Nat) :
    List (Nat × ClientConnection) :=
  cs.filter (fun e => e.1 != conn)

/-- Run a handler for the client record of `conn`: missing registry entry or
handler error leaves the state unchanged (the handler only sends an error
message), success installs the new store and client record. -/
def withClient (st : ServerState) (conn : Nat)
    (h : ClientConnection → Except String (Storage × ClientConnection)) :
    ServerState :=
  match findClient st.clients conn with
  | none => st
  | some client =>
      match h client with
      | .error _ => st
      | .ok r => ⟨r.1, setClient st.clients conn r.2⟩

/-- One step of the protocol state machine (the `wss.on` dispatch). -/
def applyEvent (now : Nat) (st : ServerState) (e : Event) : ServerState :=
  match e with
  | .connect conn => { st with clients := setClient st.clients conn ⟨none, none⟩ }
  | .disconnect conn =>
      match findClient st.clients conn with
      | none => st
      | some client =>
          match client.participant, client.sessionId with
          | some pa, some _ =>
              ⟨(updateParticipantF st.storage pa.id
                  (fun q => { q with connected := false })).2,
                removeClient st.clients conn⟩
          | _, _ => { st with clients := removeClient st.clients conn }
  | .joinSession conn p genId => withClient st conn (fun _ => handleJoinSession st.storage p genId now)
  | .leaveSession conn => withClient st conn (fun c => handleLeaveSession st.storage c)
  | .castVoteEv conn value => withClient st conn (fun c => handleCastVote st.storage c value now)
  | .revealVotes conn => withClient st conn (fun c => handleRevealVotes st.storage c)
  | .resetVoting conn => withClient st conn (fun c => handleResetVoting st.storage c)
  | .setStory conn story storyId update =>
      withClient st conn (fun c => handleSetStory st.storage c story storyId update)
  | .addStoryEv conn title link =>
      withClient st conn (fun c => handleAddStory st.storage c title link now)
  | .getStories _ => st
  | .setCurrentStory conn storyId =>
      withClient st conn (fun c => handleSetCurrentStory st.storage c storyId)
  | .updateStoryEv conn storyId title link =>
      withClient st conn (fun c => handleUpdateStory st.storage c storyId title link)

/-- Run a trace of events. -/
def runEvents (now : Nat) (st : ServerState) (evs : List Event) : ServerState :=
  evs.foldl (applyEvent now) st

/-- Whether the store holds the session with its revealed flag set. -/
def storageRevealed (stg : Storage) (sid : String) : Bool :=
  match getSession stg sid with
  | some s => s.revealed
  | none => false

/-- Whether the session is stored with its revealed flag set. -/
def sessionRevealed (st : ServerState) (sid : String) : Bool :=
  storageRevealed st.storage sid

/-- The event is a Reveal Votes arriving on a connection currently bound to
the session. -/
def RevealStep (st : ServerState) (e : Event) (sid : String) : Prop :=
  ∃ conn c, e = Event.revealVotes conn ∧ findClient st.clients conn = some c ∧
    c.sessionId = some sid ∧ c.participant.isSome

/-! ## Lemmas about the aggregation functions -/

theorem mem_firstOccurrencesAux (l : List ℚ) :
    ∀ seen x, x ∈ firstOccurrencesAux l seen ↔ x ∈ l ∧ x ∉ seen := by
  induction l with
  | nil => intro seen x; simp [firstOccurrencesAux]
  | cons a l ih =>
    intro seen x
    by_cases ha : a ∈ seen
    · simp only [firstOccurrencesAux, if_pos ha, ih, List.mem_cons]
      constructor
      · rintro ⟨hx, hs⟩; exact ⟨Or.inr hx, hs⟩
      · rintro ⟨hx | hx, hs⟩
        · subst hx; exact absurd ha hs
        · exact ⟨hx, hs⟩
    · simp only [firstOccurrencesAux, if_neg ha, List.mem_cons, ih]
      constructor
      · rintro (hx | ⟨hx, hs⟩)
        · subst hx; exact ⟨Or.inl rfl, ha⟩
        · simp only [List.mem_cons, not_or] at hs
          exact ⟨Or.inr hx, hs.2⟩
      · rintro ⟨hx | hx, hs⟩
        · exact Or.inl hx
        · by_cases hxa : x = a
          · exact Or.inl hxa
          · exact Or.inr ⟨hx, by simp [List.mem_cons, hxa, hs]⟩

theorem mem_firstOccurrences (l : List ℚ) (x : ℚ) :
    x ∈ firstOccurrences l ↔ x ∈ l := by
  simp [firstOccurrences, mem_firstOccurrencesAux]

theorem mem_sortRats (l : List ℚ) (x : ℚ) : x ∈ sortRats l ↔ x ∈ l :=
  (List.perm_insertionSort (fun a b => a ≤ b) l).mem_iff

theorem mem_jsEntriesKeys (vals : List ℚ) (x : ℚ) :
    x ∈ jsEntriesKeys vals ↔ x ∈ vals := by
  simp only [jsEntriesKeys, List.mem_append, mem_sortRats, List.mem_filter]
  constructor
  · rintro (⟨hx, _⟩ | ⟨hx, _⟩) <;> exact (mem_firstOccurrences vals x).1 hx
  · intro hx
    by_cases hk : jsIndexKey x
    · exact Or.inl ⟨(mem_firstOccurrences vals x).2 hx, hk⟩
    · exact Or.inr ⟨(mem_firstOccurrences vals x).2 hx, by simp [hk]⟩

/-- Behaviour of the mode-selection loop: either no key beats the running
maximum and the accumulator survives, or the result is the first key whose
count strictly exceeds everything before it (and is not exceeded after). -/
theorem modeFold_spec (counts : ℚ → Nat) (ks : List ℚ) :
    ∀ (m₀ : Option ℚ) (c₀ : Nat),
      (modeFold counts ks (m₀, c₀) = (m₀, c₀) ∧ ∀ k ∈ ks, counts k ≤ c₀) ∨
      (∃ m l₁ l₂, ks = l₁ ++ m :: l₂ ∧
        modeFold counts ks (m₀, c₀) = (some m, counts m) ∧
        c₀ < counts m ∧ (∀ x ∈ l₁, counts x < counts m) ∧
        (∀ x ∈ l₂, counts x ≤ counts m)) := by
  induction ks with
  | nil => intro m₀ c₀; exact Or.inl ⟨rfl, by simp⟩
  | cons k ks ih =>
    intro m₀ c₀
    by_cases hk : counts k > c₀
    · have hstep : modeFold counts (k :: ks) (m₀, c₀) =
          modeFold counts ks (some k, counts k) := by
        simp [modeFold, hk]
      rcases ih (some k) (counts k) with ⟨heq, hall⟩ | ⟨m, l₁, l₂, hks, heq, hlt, h₁, h₂⟩
      · refine Or.inr ⟨k, [], ks, by simp, ?_, hk, by simp, hall⟩
        rw [hstep, heq]
      · refine Or.inr ⟨m, k :: l₁, l₂, by simp [hks], ?_, lt_trans hk hlt, ?_, h₂⟩
        · rw [hstep, heq]
        · intro x hx
          rcases List.mem_cons.1 hx with hx | hx
          · subst hx; exact hlt
          · exact h₁ x hx
    · push_neg at hk
      have hstep : modeFold counts (k :: ks) (m₀, c₀) =
          modeFold counts ks (m₀, c₀) := by
        simp [modeFold, Nat.not_lt.2 hk]
      rcases ih m₀ c₀ with ⟨heq, hall⟩ | ⟨m, l₁, l₂, hks, heq, hlt, h₁, h₂⟩
      · refine Or.inl ⟨hstep.trans heq, ?_⟩
        intro x hx
        rcases List.mem_cons.1 hx with hx | hx
        · subst hx; exact hk
        · exact hall x hx
      · refine Or.inr ⟨m, k :: l₁, l₂, by simp [hks], hstep.trans heq,
          hlt, ?_, h₂⟩
        intro x hx
        rcases List.mem_cons.1 hx with hx | hx
        · subst hx; exact lt_of_le_of_lt hk hlt
        · exact h₁ x hx

/-! ## Claim theorems: aggregation functions -/

/-- C5: `calculateConsensus` returns "No votes" exactly on the empty list;
otherwise, with ratio = distinct values / total votes, it returns "Strong"
when ratio ≤ 0.2, "Moderate" when 0.2 < ratio ≤ 0.4, and "Weak" otherwise,
so every non-empty input yields one of the three classifications. -/
theorem calculateConsensus_spec (votes : List String) :
    (calculateConsensus votes = "No votes" ↔ votes = []) ∧
    (votes ≠ [] →
      (((votes.dedup.length : ℚ) / (votes.length : ℚ) ≤ 1 / 5 →
        calculateConsensus votes = "Strong") ∧
      (1 / 5 < ((votes.dedup.length : ℚ) / (votes.length : ℚ)) →
        ((votes.dedup.length : ℚ) / (votes.length : ℚ)) ≤ 2 / 5 →
        calculateConsensus votes = "Moderate") ∧
      (2 / 5 < ((votes.dedup.length : ℚ) / (votes.length : ℚ)) →
        calculateConsensus votes = "Weak") ∧
      (calculateConsensus votes = "Strong" ∨ calculateConsensus votes = "Moderate" ∨
        calculateConsensus votes = "Weak"))) := by
  by_cases hnil : votes = []
  · subst hnil
    refine ⟨by simp [calculateConsensus], ?_⟩
    intro h; exact absurd rfl h
  · have hlen : votes.length ≠ 0 := by
      simpa [List.length_eq_zero] using hnil
    constructor
    · constructor
      · intro h
        exfalso
        rw [calculateConsensus, if_neg hlen] at h
        split_ifs at h <;> simp_all
      · intro h; exact absurd h hnil
    · intro _
      rw [calculateConsensus, if_neg hlen]
      refine ⟨fun h₁ => by rw [if_pos h₁], fun h₁ h₂ => ?_, fun h₂ => ?_, ?_⟩
      · rw [if_neg (not_le.2 h₁), if_pos h₂]
      · rw [if_neg (not_le.2 (lt_trans (by norm_num) h₂)), if_neg (not_le.2 h₂)]
      · split_ifs <;> simp

/-- C5 witness: concrete classifications obtained through the theorem. -/
theorem calculateConsensus_spec_witness :
    calculateConsensus ["5", "8"] = "Weak" ∧
    calculateConsensus ["5", "5", "5", "5", "5"] = "Strong" :=
  ⟨((calculateConsensus_spec ["5", "8"]).2 (by simp)).2.2.1
      (by with_unfolding_all decide),
   ((calculateConsensus_spec ["5", "5", "5", "5", "5"]).2 (by simp)).1
      (by with_unfolding_all decide)⟩

/-- C6: `calculateStatistics` discards the "?" sentinel and maps the rest to
numbers; with no numeric values all three statistics are "N/A"; otherwise the
average is the arithmetic mean — the double the code computes for sum/count,
modelled by `roundToDouble` — rendered to one decimal place, and the median
is the exact middle of the sorted values (odd count) or the mean of the two
middle values to one decimal place (even count).  On ["1","3","3","?"] with a
numeric scale it yields average "2.3", median "3", mode "3". -/
theorem calculateStatistics_spec :
    calculateStatistics ["1", "3", "3", "?"] "fibonacci" = ⟨"2.3", "3", "3"⟩ ∧
    (∀ votes votingSystem, numericVotes votes votingSystem = [] →
      calculateStatistics votes votingSystem = ⟨"N/A", "N/A", "N/A"⟩) ∧
    (∀ votes votingSystem, numericVotes votes votingSystem ≠ [] →
      (calculateStatistics votes votingSystem).average =
        toFixed1 (roundToDouble ((numericVotes votes votingSystem).sum /
          ((numericVotes votes votingSystem).length : ℚ)))) ∧
    (∀ votes votingSystem, numericVotes votes votingSystem ≠ [] →
      (calculateStatistics votes votingSystem).median =
        (if (sortRats (numericVotes votes votingSystem)).length % 2 = 0 then
          toFixed1 (((sortRats (numericVotes votes votingSystem)).getD
              ((sortRats (numericVotes votes votingSystem)).length / 2 - 1) 0 +
            (sortRats (numericVotes votes votingSystem)).getD
              ((sortRats (numericVotes votes votingSystem)).length / 2) 0) / 2)
        else ratToString ((sortRats (numericVotes votes votingSystem)).getD
          ((sortRats (numericVotes votes votingSystem)).length / 2) 0))) ∧
    (∀ l : List ℚ, (sortRats l).Perm l ∧ (sortRats l).Sorted (fun a b => a ≤ b)) := by
  refine ⟨by set_option maxRecDepth 20000 in with_unfolding_all decide, ?_, ?_, ?_, ?_⟩
  · intro votes votingSystem h
    rw [calculateStatistics, h]
    simp
  · intro votes votingSystem h
    have hlen : (numericVotes votes votingSystem).length ≠ 0 := by
      simpa [List.length_eq_zero] using h
    rw [calculateStatistics, if_neg hlen]
    have hsum : (numericVotes votes votingSystem).foldl (fun acc val => acc + val) 0 =
        (numericVotes votes votingSystem).sum := by
      rw [List.sum_eq_foldl]
    simp only [hsum]
  · intro votes votingSystem h
    have hlen : (numericVotes votes votingSystem).length ≠ 0 := by
      simpa [List.length_eq_zero] using h
    rw [calculateStatistics, if_neg hlen]
  · intro l
    exact ⟨List.perm_insertionSort (fun a b => a ≤ b) l,
      List.sorted_insertionSort (fun a b => a ≤ b) l⟩

/-- C6 witness: the theorem applied to the all-"?" collection and to the
concrete numeric example. -/
theorem calculateStatistics_spec_witness :
    calculateStatistics ["?", "?"] "standard" = ⟨"N/A", "N/A", "N/A"⟩ ∧
    (calculateStatistics ["1", "3", "3", "?"] "fibonacci").average =
      toFixed1 (roundToDouble ((numericVotes ["1", "3", "3", "?"] "fibonacci").sum /
        ((numericVotes ["1", "3", "3", "?"] "fibonacci").length : ℚ))) :=
  ⟨calculateStatistics_spec.2.1 ["?", "?"] "standard" (by with_unfolding_all decide),
   calculateStatistics_spec.2.2.1 ["1", "3", "3", "?"] "fibonacci"
     (by with_unfolding_all decide)⟩

/-- C7 counterexample: on votes ["3","1"] (numeric scale) the values 3 and 1
tie with one occurrence each and 3 is encountered first during aggregation,
yet the mode is "1": `Object.entries` enumerates integer-like keys in
ascending numeric order, not in insertion order, so the claimed
first-encountered tie-break does not hold. -/
theorem calculateStatistics_mode_counterexample :
    numericVotes ["3", "1"] "fibonacci" = [3, 1] ∧
    (numericVotes ["3", "1"] "fibonacci").count 3 =
      (numericVotes ["3", "1"] "fibonacci").count 1 ∧
    (calculateStatistics ["3", "1"] "fibonacci").mode = "1" ∧
    (calculateStatistics ["3", "1"] "fibonacci").mode ≠ "3" := by
  with_unfolding_all decide

/-- C7 amended: the mode is a numeric vote value of maximal occurrence count,
and when several values tie for the highest count the tie is broken in favor
of the value earliest in the `Object.entries` enumeration order of the counts
record — integer-like values in ascending numeric order first, then the
remaining values in first-encountered order — not the value first encountered
during aggregation. -/
theorem calculateStatistics_mode_argmax (votes : List String) (votingSystem : String)
    (h : numericVotes votes votingSystem ≠ []) :
    ∃ m l₁ l₂,
      (calculateStatistics votes votingSystem).mode = ratToString m ∧
      m ∈ numericVotes votes votingSystem ∧
      jsEntriesKeys (numericVotes votes votingSystem) = l₁ ++ m :: l₂ ∧
      (∀ x ∈ numericVotes votes votingSystem,
        (numericVotes votes votingSystem).count x ≤
          (numericVotes votes votingSystem).count m) ∧
      (∀ x ∈ l₁, (numericVotes votes votingSystem).count x <
        (numericVotes votes votingSystem).count m) := by
  set nv := numericVotes votes votingSystem with hnv
  have hlen : nv.length ≠ 0 := by simpa [List.length_eq_zero] using h
  rcases modeFold_spec (fun q => nv.count q) (jsEntriesKeys nv) none 0 with
    ⟨_, hall⟩ | ⟨m, l₁, l₂, hks, heq, _, h₁, h₂⟩
  · exfalso
    obtain ⟨x, hx⟩ := List.exists_mem_of_ne_nil nv h
    have hxk : x ∈ jsEntriesKeys nv := (mem_jsEntriesKeys nv x).2 hx
    have := hall x hxk
    have hpos : 0 < nv.count x := List.count_pos_iff.2 hx
    omega
  · have hm : m ∈ nv := by
      have : m ∈ jsEntriesKeys nv := by rw [hks]; simp
      exact (mem_jsEntriesKeys nv m).1 this
    refine ⟨m, l₁, l₂, ?_, hm, hks, ?_, h₁⟩
    · rw [calculateStatistics, if_neg hlen]
      simp only [← hnv, heq]
    · intro x hx
      have hxk : x ∈ jsEntriesKeys nv := (mem_jsEntriesKeys nv x).2 hx
      rw [hks] at hxk
      rcases List.mem_append.1 hxk with hx₁ | hx₂
      · exact le_of_lt (h₁ x hx₁)
      · rcases List.mem_cons.1 hx₂ with hx₂ | hx₂
        · subst hx₂; exact le_refl _
        · exact h₂ x hx₂

/-- C7 amended witness: the argmax characterization at the tie input. -/
theorem calculateStatistics_mode_argmax_witness :
    ∃ m l₁ l₂,
      (calculateStatistics ["3", "1"] "fibonacci").mode = ratToString m ∧
      m ∈ numericVotes ["3", "1"] "fibonacci" ∧
      jsEntriesKeys (numericVotes ["3", "1"] "fibonacci") = l₁ ++ m :: l₂ ∧
      (∀ x ∈ numericVotes ["3", "1"] "fibonacci",
        (numericVotes ["3", "1"] "fibonacci").count x ≤
          (numericVotes ["3", "1"] "fibonacci").count m) ∧
      (∀ x ∈ l₁, (numericVotes ["3", "1"] "fibonacci").count x <
        (numericVotes ["3", "1"] "fibonacci").count m) :=
  calculateStatistics_mode_argmax ["3", "1"] "fibonacci" (by with_unfolding_all decide)

/-- C10: under the "tshirt" voting system every vote string other than the six
recognized sizes maps to 0, and no value is excluded after the "?" filter —
`numericVotes` is exactly the ordinal map over the filtered list, so
unrecognized votes are counted as 0 in all three statistics. -/
theorem getTShirtValue_default_counted (v : String)
    (h : v ∉ (["XS", "S", "M", "L", "XL", "XXL"] : List String)) :
    getTShirtValue v = 0 ∧
    ∀ votes : List String,
      numericVotes votes "tshirt" =
        (votes.filter (fun w => w ≠ "?")).map getTShirtValue := by
  constructor
  · simp only [List.mem_cons, not_or, List.not_mem_nil, and_true] at h
    obtain ⟨h₁, h₂, h₃, h₄, h₅, h₆⟩ := h
    simp [getTShirtValue, h₁, h₂, h₃, h₄, h₅, h₆]
  · intro votes
    rw [numericVotes]
    simp only [if_pos rfl]
    exact List.filterMap_eq_map getTShirtValue ▸ rfl

/-- C10 witness: the unrecognized size "XXXL" is mapped to 0 and counted. -/
theorem getTShirtValue_default_counted_witness :
    getTShirtValue "XXXL" = 0 ∧
    ∀ votes : List String,
      numericVotes votes "tshirt" =
        (votes.filter (fun w => w ≠ "?")).map getTShirtValue :=
  getTShirtValue_default_counted "XXXL" (by decide)

/-! ## Lemmas about the vote store -/

theorem filter_map_of_pred {α : Type} (f : α → α) (p : α → Bool) :
    ∀ l : List α, (∀ a ∈ l, p (f a) = p a) →
      (l.map f).filter p = (l.filter p).map f := by
  intro l
  induction l with
  | nil => intro _; rfl
  | cons a l ih =>
    intro h
    have ha := h a (List.mem_cons_self a l)
    have hl := ih (fun x hx => h x (List.mem_cons_of_mem a hx))
    by_cases hp : p a = true
    · simp [List.filter_cons, ha, hp, hl]
    · simp only [Bool.not_eq_true] at hp
      simp [List.filter_cons, ha, hp, hl]

theorem eq_singleton_of_length_le_one {α : Type} (l : List α) (a : α)
    (ha : a ∈ l) (hl : l.length ≤ 1) : l = [a] := by
  match l with
  | [] => cases ha
  | [x] => rcases List.mem_singleton.1 ha with rfl; rfl
  | x :: y :: t => simp at hl

theorem find?_map_of_pred {α : Type} (g : α → α) (pr : α → Bool) :
    ∀ l : List α, (∀ a, pr (g a) = pr a) →
      (l.map g).find? pr = (l.find? pr).map g := by
  intro l h
  induction l with
  | nil => rfl
  | cons a l ih =>
    rw [List.map_cons]
    by_cases hp : pr a = true
    · simp [List.find?_cons, h a, hp]
    · simp only [Bool.not_eq_true] at hp
      simp [List.find?_cons, h a, hp, ih]

theorem find?_beq_of_nodup_map {α β : Type} [BEq β] [LawfulBEq β]
    (f : α → β) (a : α) :
    ∀ l : List α, (l.map f).Nodup → a ∈ l →
      l.find? (fun x => f x == f a) = some a := by
  intro l
  induction l with
  | nil => intro _ h; cases h
  | cons x t ih =>
    intro hn ha
    simp only [List.map_cons, List.nodup_cons] at hn
    by_cases hx : (f x == f a) = true
    · simp only [List.find?_cons, hx, Option.some.injEq]
      rcases List.mem_cons.1 ha with rfl | hat
      · rfl
      · exfalso
        have : f a ∈ t.map f := List.mem_map_of_mem f hat
        rw [← eq_of_beq hx] at this
        exact hn.1 this
    · simp only [Bool.not_eq_true] at hx
      rcases List.mem_cons.1 ha with rfl | hat
      · simp at hx
      · simp only [List.find?_cons, hx]
        exact ih hn.2 hat

theorem find?_eq_head?_filter {α : Type} (pr : α → Bool) :
    ∀ l : List α, l.find? pr = (l.filter pr).head? := by
  intro l
  induction l with
  | nil => rfl
  | cons a l ih =>
    by_cases hp : pr a = true
    · simp [List.find?_cons, List.filter_cons, hp]
    · simp only [Bool.not_eq_true] at hp
      rw [List.find?_cons, List.filter_cons, hp]
      exact ih

/-- Single `castVote` call: the (session, participant) pair of the cast ends
up with exactly the returned vote, the returned vote carries the cast value,
the at-most-one-per-pair invariant and the store well-formedness are
preserved, and no row is added when the pair already had a vote. -/
theorem castVote_step (st : Storage) (vote : InsertVote) (now : Nat)
    (hnodup : (st.votes.map Vote.id).Nodup)
    (hctr : ∀ v ∈ st.votes, v.id < st.voteIdCounter)
    (hone : ∀ sid pid, (votesFor st.votes sid pid).length ≤ 1) :
    votesFor (castVote st vote now).2.votes vote.sessionId vote.participantId =
      [(castVote st vote now).1] ∧
    (castVote st vote now).1.value = vote.value ∧
    (∀ sid pid, (votesFor (castVote st vote now).2.votes sid pid).length ≤ 1) ∧
    ((castVote st vote now).2.votes.map Vote.id).Nodup ∧
    (∀ v ∈ (castVote st vote now).2.votes, v.id < (castVote st vote now).2.voteIdCounter) ∧
    ((getVote st vote.participantId vote.sessionId).isSome →
      (castVote st vote now).2.votes.length = st.votes.length) := by
  cases hfind : getVote st vote.participantId vote.sessionId with
  | some e =>
    have he_mem : e ∈ st.votes := List.mem_of_find?_eq_some hfind
    have he_p := List.find?_some hfind
    simp only [Bool.and_eq_true, beq_iff_eq] at he_p
    obtain ⟨hepid, hesid⟩ := he_p
    have hinj : ∀ v ∈ st.votes, v.id = e.id → v = e := fun v hv hid =>
      List.inj_on_of_nodup_map hnodup hv he_mem hid
    set upd : Vote := { e with value := vote.value } with hupd
    set f : Vote → Vote := fun v => if v.id == e.id then upd else v with hf
    have hcast : castVote st vote now = (upd, { st with votes := st.votes.map f }) := by
      rw [castVote, hfind]
    have hid_pt : ∀ v ∈ st.votes, (f v).id = v.id := by
      intro v hv
      by_cases hid : v.id = e.id
      · have : v = e := hinj v hv hid
        subst this
        simp [hf, hupd]
      · simp [hf, hid]
    have hids : (st.votes.map f).map Vote.id = st.votes.map Vote.id := by
      rw [List.map_map]
      exact List.map_congr_left hid_pt
    have hpair_pt : ∀ (sid : String) (pid : Nat), ∀ v ∈ st.votes,
        ((f v).sessionId == sid && (f v).participantId == pid) =
          (v.sessionId == sid && v.participantId == pid) := by
      intro sid pid v hv
      by_cases hid : v.id = e.id
      · have : v = e := hinj v hv hid
        subst this
        simp [hf, hupd]
      · simp [hf, hid]
    have hvf : ∀ (sid : String) (pid : Nat),
        votesFor (st.votes.map f) sid pid = (votesFor st.votes sid pid).map f := by
      intro sid pid
      exact filter_map_of_pred f _ st.votes (hpair_pt sid pid)
    have he_in : e ∈ votesFor st.votes vote.sessionId vote.participantId := by
      rw [votesFor, List.mem_filter]
      exact ⟨he_mem, by simp [hesid, hepid]⟩
    have hsingle : votesFor st.votes vote.sessionId vote.participantId = [e] :=
      eq_singleton_of_length_le_one _ e he_in (hone _ _)
    have hfe : f e = upd := by simp [hf]
    refine ⟨?_, ?_, ?_, ?_, ?_, ?_⟩
    · rw [hcast]
      simp only [hvf, hsingle, List.map_cons, List.map_nil, hfe]
    · rw [hcast]
    · intro sid pid
      rw [hcast]
      simp only [hvf, List.length_map]
      exact hone sid pid
    · rw [hcast]
      simpa only [hids] using hnodup
    · intro v hv
      rw [hcast] at hv ⊢
      simp only [List.mem_map] at hv
      obtain ⟨w, hw, rfl⟩ := hv
      have := hid_pt w hw
      simp only [this]
      exact hctr w hw
    · intro _
      rw [hcast]
      simp
  | none =>
    have hnone := List.find?_eq_none.1 hfind
    set newVote : Vote :=
      ⟨st.voteIdCounter, vote.sessionId, vote.participantId, vote.value,
        vote.storyId, now⟩ with hnew
    have hcast : castVote st vote now =
        (newVote, { st with votes := st.votes ++ [newVote],
                            voteIdCounter := st.voteIdCounter + 1 }) := by
      rw [castVote, hfind]
    have hold_nil : votesFor st.votes vote.sessionId vote.participantId = [] := by
      rw [votesFor, List.filter_eq_nil_iff]
      intro v hv
      have := hnone v hv
      simp only [Bool.and_eq_true, beq_iff_eq, not_and] at this ⊢
      intro hs hp
      exact this hp hs
    refine ⟨?_, ?_, ?_, ?_, ?_, ?_⟩
    · rw [hcast]
      simp only [votesFor, List.filter_append]
      rw [votesFor] at hold_nil
      rw [hold_nil]
      simp [hnew]
    · rw [hcast]
    · intro sid pid
      rw [hcast]
      simp only [votesFor, List.filter_append]
      by_cases hmatch : (newVote.sessionId == sid && newVote.participantId == pid) = true
      · simp only [Bool.and_eq_true, beq_iff_eq] at hmatch
        obtain ⟨hs, hp⟩ := hmatch
        have hsid : sid = vote.sessionId := by rw [← hs]
        have hpid : pid = vote.participantId := by rw [← hp]
        subst hsid; subst hpid
        rw [votesFor] at hold_nil
        rw [hold_nil]
        simp
      · simp only [Bool.not_eq_true] at hmatch
        have h' := hone sid pid
        rw [votesFor] at h'
        simpa [List.filter_cons, hmatch] using h'
    · rw [hcast]
      simp only [List.map_append, List.map_cons, List.map_nil, List.nodup_append]
      refine ⟨hnodup, List.nodup_singleton _, ?_⟩
      intro a ha hb
      simp only [List.mem_singleton] at hb
      simp only [List.mem_map] at ha
      obtain ⟨v, hv, hvid⟩ := ha
      have hlt := hctr v hv
      rw [hvid, hb] at hlt
      omega
    · intro v hv
      rw [hcast] at hv ⊢
      simp only [List.mem_append, List.mem_singleton] at hv
      rcases hv with hv | rfl
      · have := hctr v hv
        simp only
        omega
      · simp [hnew]
    · intro h
      simp only [hfind, Option.isSome_none] at h
      exact absurd h (by simp)

/-- `castMany` preserves the store invariants and, for a non-empty sequence
of values, leaves exactly one vote for the pair carrying the last value. -/
theorem castMany_spec (sessionId : String) (participantId : Nat) (now : Nat) :
    ∀ (values : List String) (st : Storage),
      (st.votes.map Vote.id).Nodup →
      (∀ v ∈ st.votes, v.id < st.voteIdCounter) →
      (∀ sid pid, (votesFor st.votes sid pid).length ≤ 1) →
      (((castMany st sessionId participantId values now).votes.map Vote.id).Nodup ∧
       (∀ v ∈ (castMany st sessionId participantId values now).votes,
         v.id < (castMany st sessionId participantId values now).voteIdCounter) ∧
       (∀ sid pid,
         (votesFor (castMany st sessionId participantId values now).votes sid pid).length ≤ 1)) ∧
      ∀ hne : values ≠ [],
        ∃ w : Vote,
          votesFor (castMany st sessionId participantId values now).votes
            sessionId participantId = [w] ∧
          w.value = values.getLast hne := by
  intro values
  induction values with
  | nil =>
    intro st h₁ h₂ h₃
    exact ⟨⟨h₁, h₂, h₃⟩, fun hne => absurd rfl hne⟩
  | cons val vs ih =>
    intro st h₁ h₂ h₃
    have hstep := castVote_step st ⟨sessionId, participantId, val, none⟩ now h₁ h₂ h₃
    obtain ⟨hvf, hval, hone, hnodup, hctr, _⟩ := hstep
    set st₁ := (castVote st ⟨sessionId, participantId, val, none⟩ now).2 with hst₁
    have hmany : castMany st sessionId participantId (val :: vs) now =
        castMany st₁ sessionId participantId vs now := by
      rw [castMany, castMany, List.foldl_cons]
    have hih := ih st₁ hnodup hctr hone
    rw [hmany]
    refine ⟨hih.1, ?_⟩
    intro hne
    by_cases hvs : vs = []
    · subst hvs
      refine ⟨(castVote st ⟨sessionId, participantId, val, none⟩ now).1, ?_, ?_⟩
      · rw [castMany, List.foldl_nil]
        exact hvf
      · rw [List.getLast_singleton]
        exact hval
    · obtain ⟨w, hw₁, hw₂⟩ := hih.2 hvs
      refine ⟨w, hw₁, ?_⟩
      rw [hw₂]
      exact (List.getLast_cons hvs).symm

/-! ## Claim theorems: vote store -/

/-- C1: the store holds at most one vote per (session, participant) pair:
`castVote` on a pair that already has a vote updates it in place without
adding a row, the invariant is preserved, and after any non-empty sequence of
casts by one participant in one session exactly one vote remains, carrying
the latest value. -/
theorem castVote_at_most_one_per_pair (st : Storage) (vote : InsertVote) (now : Nat)
    (hnodup : (st.votes.map Vote.id).Nodup)
    (hctr : ∀ v ∈ st.votes, v.id < st.voteIdCounter)
    (hone : ∀ sid pid, (votesFor st.votes sid pid).length ≤ 1) :
    votesFor (castVote st vote now).2.votes vote.sessionId vote.participantId =
      [(castVote st vote now).1] ∧
    (castVote st vote now).1.value = vote.value ∧
    (∀ sid pid, (votesFor (castVote st vote now).2.votes sid pid).length ≤ 1) ∧
    ((getVote st vote.participantId vote.sessionId).isSome →
      (castVote st vote now).2.votes.length = st.votes.length) ∧
    (∀ values : List String, ∀ hne : values ≠ [],
      ∃ w : Vote,
        votesFor (castMany st vote.sessionId vote.participantId values now).votes
          vote.sessionId vote.participantId = [w] ∧
        w.value = values.getLast hne) := by
  obtain ⟨h₁, h₂, h₃, _, _, h₆⟩ := castVote_step st vote now hnodup hctr hone
  refine ⟨h₁, h₂, h₃, h₆, ?_⟩
  intro values hne
  exact (castMany_spec vote.sessionId vote.participantId now values st
    hnodup hctr hone).2 hne

/-- C1 witness: casting twice in a row from the empty store leaves exactly
one vote for the pair, carrying the second value. -/
theorem castVote_at_most_one_per_pair_witness :
    ∃ w : Vote,
      votesFor (castMany Storage.empty "S" 7 ["5", "8"] 0).votes "S" 7 = [w] ∧
      w.value = (["5", "8"] : List String).getLast (by simp) :=
  (castVote_at_most_one_per_pair Storage.empty ⟨"S", 7, "5", none⟩ 0
    (by simp [Storage.empty])
    (by simp [Storage.empty])
    (fun sid pid => by simp [Storage.empty, votesFor])).2.2.2.2
    ["5", "8"] (by simp)

/-- C9: when a vote for the pair already exists, `castVote` changes only the
stored vote's `value`: its `id`, `createdAt` and `storyId` keep their prior
values, every other row is untouched, no row is added, and the `storyId`
supplied with the new cast is ignored. -/
theorem castVote_frame_effect (st : Storage) (vote : InsertVote) (now : Nat) (e : Vote)
    (hfind : getVote st vote.participantId vote.sessionId = some e) :
    (castVote st vote now).1 = { e with value := vote.value } ∧
    (castVote st vote now).1.id = e.id ∧
    (castVote st vote now).1.createdAt = e.createdAt ∧
    (castVote st vote now).1.storyId = e.storyId ∧
    (castVote st vote now).2.votes = st.votes.map (fun v =>
      if v.id == e.id then { e with value := vote.value } else v) ∧
    (castVote st vote now).2.voteIdCounter = st.voteIdCounter ∧
    (∀ w ∈ st.votes, w.id ≠ e.id → w ∈ (castVote st vote now).2.votes) ∧
    (∀ sid2 : Option String,
      castVote st { vote with storyId := sid2 } now = castVote st vote now) := by
  have hcast : castVote st vote now =
      ({ e with value := vote.value },
       { st with votes := st.votes.map (fun v =>
           if v.id == e.id then { e with value := vote.value } else v) }) := by
    rw [castVote, hfind]
  refine ⟨by rw [hcast], by rw [hcast], by rw [hcast], by rw [hcast],
    by rw [hcast], by rw [hcast], ?_, ?_⟩
  · intro w hw hwid
    rw [hcast]
    simp only [List.mem_map]
    exact ⟨w, hw, by simp [hwid]⟩
  · intro sid2
    have hfind2 : getVote st (InsertVote.participantId { vote with storyId := sid2 })
        (InsertVote.sessionId { vote with storyId := sid2 }) = some e := hfind
    rw [castVote, hfind2, hcast]

/-- C9 witness: recasting over a concrete stored vote preserves id,
timestamp and story association and ignores the supplied storyId. -/
theorem castVote_frame_effect_witness :
    (castVote ⟨[], [], [], [⟨1, "S", 7, "5", none, 3⟩], 1, 2, 1⟩
        ⟨"S", 7, "8", some "X"⟩ 9).1 = ⟨1, "S", 7, "8", none, 3⟩ ∧
    (castVote ⟨[], [], [], [⟨1, "S", 7, "5", none, 3⟩], 1, 2, 1⟩
        ⟨"S", 7, "8", some "X"⟩ 9).2.votes = [⟨1, "S", 7, "8", none, 3⟩] := by
  have h := castVote_frame_effect ⟨[], [], [], [⟨1, "S", 7, "5", none, 3⟩], 1, 2, 1⟩
    ⟨"S", 7, "8", some "X"⟩ 9 ⟨1, "S", 7, "5", none, 3⟩ (by rfl)
  exact ⟨h.1, by rw [h.2.2.2.2.1]; rfl⟩

/-! ## Claim theorems: session broadcaster -/

/-- C8 counterexample: a registered connection bound to the broadcast session
and not excluded receives nothing when its socket is not open, so the claimed
"exactly those registered connections whose bound sessionId matches and that
are not excluded" does not hold as stated — the code additionally requires
`readyState === OPEN`. -/
theorem broadcastRecipients_counterexample :
    broadcastRecipients [(⟨0, false⟩, ⟨none, some "S"⟩)] "S" none = [] ∧
    (⟨0, false⟩ : Socket) ∉ broadcastRecipients [(⟨0, false⟩, ⟨none, some "S"⟩)] "S" none ∧
    ((⟨0, false⟩ : Socket), (⟨none, some "S"⟩ : ClientConnection)) ∈
      ([(⟨0, false⟩, ⟨none, some "S"⟩)] : List (Socket × ClientConnection)) ∧
    (⟨none, some "S"⟩ : ClientConnection).sessionId = some "S" := by
  decide

/-- C8 amended: `broadcastToSession` sends the message exactly to those
registered connections whose bound sessionId equals the given session, that
are not the excluded connection, and whose socket is currently open; in
particular (for a registry with duplicate-free socket keys) it never delivers
to a connection bound to a different session or to an unbound connection. -/
theorem broadcastRecipients_spec (clients : List (Socket × ClientConnection))
    (sessionId : String) (exclude : Option Socket) (s : Socket)
    (hkeys : (clients.map (fun e => e.1)).Nodup) :
    (s ∈ broadcastRecipients clients sessionId exclude ↔
      ∃ c : ClientConnection, (s, c) ∈ clients ∧ c.sessionId = some sessionId ∧
        some s ≠ exclude ∧ s.isOpen = true) ∧
    (s ∈ broadcastRecipients clients sessionId exclude →
      ∀ c : ClientConnection, (s, c) ∈ clients → c.sessionId = some sessionId) := by
  have hmem : s ∈ broadcastRecipients clients sessionId exclude ↔
      ∃ c : ClientConnection, (s, c) ∈ clients ∧ c.sessionId = some sessionId ∧
        some s ≠ exclude ∧ s.isOpen = true := by
    rw [broadcastRecipients]
    simp only [List.mem_map, List.mem_filter]
    constructor
    · rintro ⟨⟨s', c⟩, ⟨hin, hpred⟩, rfl⟩
      simp only [Bool.and_eq_true, beq_iff_eq, bne_iff_ne, ne_eq] at hpred
      exact ⟨c, hin, hpred.1.1, hpred.1.2, hpred.2⟩
    · rintro ⟨c, hin, hsid, hex, hopen⟩
      refine ⟨(s, c), ⟨hin, ?_⟩, rfl⟩
      simp only [Bool.and_eq_true, beq_iff_eq, bne_iff_ne, ne_eq]
      exact ⟨⟨hsid, hex⟩, hopen⟩
  refine ⟨hmem, ?_⟩
  intro hs c hc
  obtain ⟨c0, hc0, hc0sid, _, _⟩ := hmem.1 hs
  have : (s, c) = (s, c0) :=
    List.inj_on_of_nodup_map hkeys hc hc0 rfl
  rw [show c = c0 from congrArg Prod.snd this]
  exact hc0sid

/-- C8 amended witness: a two-connection registry where exactly the open,
same-session, non-excluded connection receives. -/
theorem broadcastRecipients_spec_witness :
    ((⟨1, true⟩ : Socket) ∈ broadcastRecipients
        [(⟨0, false⟩, ⟨none, some "S"⟩), (⟨1, true⟩, ⟨none, some "S"⟩),
         (⟨2, true⟩, ⟨none, some "T"⟩)] "S" none ↔
      ∃ c : ClientConnection,
        ((⟨1, true⟩ : Socket), c) ∈
          [((⟨0, false⟩ : Socket), (⟨none, some "S"⟩ : ClientConnection)),
           (⟨1, true⟩, ⟨none, some "S"⟩), (⟨2, true⟩, ⟨none, some "T"⟩)] ∧
        c.sessionId = some "S" ∧ some (⟨1, true⟩ : Socket) ≠ none ∧
        (⟨1, true⟩ : Socket).isOpen = true) ∧
    ((⟨1, true⟩ : Socket) ∈ broadcastRecipients
        [(⟨0, false⟩, ⟨none, some "S"⟩), (⟨1, true⟩, ⟨none, some "S"⟩),
         (⟨2, true⟩, ⟨none, some "T"⟩)] "S" none →
      ∀ c : ClientConnection,
        ((⟨1, true⟩ : Socket), c) ∈
          [((⟨0, false⟩ : Socket), (⟨none, some "S"⟩ : ClientConnection)),
           (⟨1, true⟩, ⟨none, some "S"⟩), (⟨2, true⟩, ⟨none, some "T"⟩)] →
        c.sessionId = some "S") :=
  broadcastRecipients_spec
    [(⟨0, false⟩, ⟨none, some "S"⟩), (⟨1, true⟩, ⟨none, some "S"⟩),
     (⟨2, true⟩, ⟨none, some "T"⟩)] "S" none ⟨1, true⟩ (by decide)

/-! ## Claim theorems: joining a session -/

/-- C2: joining an existing session with a display name: a connected
participant with that name in that session makes the join fail with the
name-already-exists error (no state returned, nothing created or modified); a
disconnected one is reactivated in place (connected set true, no new row) and
the connection is bound to it; otherwise a new non-admin connected
participant is appended and bound. -/
theorem handleJoinSession_existing (st : Storage) (p : JoinPayload) (genId : String)
    (now : Nat) (sid : String)
    (hsid : p.sessionId = some sid) (hsidne : sid ≠ "")
    (hname : p.name ≠ "")
    (hnoadmin : (p.isAdmin && truthy p.sessionName && truthy p.votingSystem) = false)
    (hsess : (getSession st sid).isSome)
    (hnodup : (st.participants.map Participant.id).Nodup)
    (huniq : (participantsNamed st.participants sid p.name).length ≤ 1) :
    (∀ q ∈ st.participants, q.sessionId = sid → q.name = p.name → q.connected = true →
      handleJoinSession st p genId now =
        .error "A participant with this name already exists in the session") ∧
    (∀ q ∈ st.participants, q.sessionId = sid → q.name = p.name → q.connected = false →
      handleJoinSession st p genId now =
        .ok ({ st with participants := st.participants.map (fun x =>
                 if x.id == q.id then { x with connected := true } else x) },
             ⟨some { q with connected := true }, some sid⟩)) ∧
    ((∀ q ∈ st.participants, ¬(q.sessionId = sid ∧ q.name = p.name)) →
      handleJoinSession st p genId now =
        .ok ({ st with
                participants := st.participants ++ [⟨st.participantIdCounter, sid, p.name, false, true, now⟩],
                participantIdCounter := st.participantIdCounter + 1 },
             ⟨some ⟨st.participantIdCounter, sid, p.name, false, true, now⟩, some sid⟩)) := by
  have htr : truthy p.sessionId = true := by
    rw [hsid]
    simp [truthy, hsidne]
  obtain ⟨sess, hsess2⟩ := Option.isSome_iff_exists.1 hsess
  have hred : handleJoinSession st p genId now =
      (match getParticipantByName st sid p.name with
       | some existingParticipant =>
           if existingParticipant.connected then
             .error "A participant with this name already exists in the session"
           else
             .ok ((updateParticipantF st existingParticipant.id
                 (fun q => { q with connected := true })).2,
               ⟨some { existingParticipant with connected := true }, some sid⟩)
       | none =>
           .ok ((addParticipant st sid p.name false now).2,
             ⟨some (addParticipant st sid p.name false now).1, some sid⟩)) := by
    rw [handleJoinSession, if_neg hname, if_neg (by simp [hnoadmin]),
      if_neg (by simp [htr]), hsid]
    simp only [Option.getD_some]
    rw [hsess2]
  refine ⟨?_, ?_, ?_⟩
  · intro q hq hqsid hqname hqconn
    have hqin : q ∈ participantsNamed st.participants sid p.name := by
      rw [participantsNamed, List.mem_filter]
      exact ⟨hq, by simp [hqsid, hqname]⟩
    have hsingle : participantsNamed st.participants sid p.name = [q] :=
      eq_singleton_of_length_le_one _ q hqin huniq
    have hfound : getParticipantByName st sid p.name = some q := by
      rw [getParticipantByName, find?_eq_head?_filter]
      have : st.participants.filter
          (fun x => x.sessionId == sid && x.name == p.name) = [q] := hsingle
      rw [this]
      rfl
    rw [hred, hfound]
    simp [hqconn]
  · intro q hq hqsid hqname hqconn
    have hqin : q ∈ participantsNamed st.participants sid p.name := by
      rw [participantsNamed, List.mem_filter]
      exact ⟨hq, by simp [hqsid, hqname]⟩
    have hsingle : participantsNamed st.participants sid p.name = [q] :=
      eq_singleton_of_length_le_one _ q hqin huniq
    have hfound : getParticipantByName st sid p.name = some q := by
      rw [getParticipantByName, find?_eq_head?_filter]
      have : st.participants.filter
          (fun x => x.sessionId == sid && x.name == p.name) = [q] := hsingle
      rw [this]
      rfl
    have hfindid : st.participants.find? (fun x => x.id == q.id) = some q :=
      find?_beq_of_nodup_map Participant.id q st.participants hnodup hq
    rw [hred, hfound]
    simp only [hqconn, Bool.false_eq_true, if_false]
    rw [updateParticipantF, hfindid]
  · intro hnone
    have hfound : getParticipantByName st sid p.name = none := by
      rw [getParticipantByName, List.find?_eq_none]
      intro q hq
      have := hnone q hq
      simp only [Bool.and_eq_true, beq_iff_eq, not_and] at this ⊢
      intro hs hn
      exact this hs hn
    rw [hred, hfound]
    rfl

/-- C2 witness: a disconnected "Bob" is reactivated in place and bound. -/
theorem handleJoinSession_existing_witness :
    handleJoinSession
        ⟨[⟨"S", "sess", "Alice", "fibonacci", some "", true, false, 0⟩],
         [⟨1, "S", "Bob", false, false, 5⟩], [], [], 2, 1, 1⟩
        ⟨some "S", "Bob", false, none, none⟩ "X" 9 =
      .ok (⟨[⟨"S", "sess", "Alice", "fibonacci", some "", true, false, 0⟩],
            [⟨1, "S", "Bob", false, true, 5⟩], [], [], 2, 1, 1⟩,
           ⟨some ⟨1, "S", "Bob", false, true, 5⟩, some "S"⟩) :=
  ((handleJoinSession_existing
      ⟨[⟨"S", "sess", "Alice", "fibonacci", some "", true, false, 0⟩],
       [⟨1, "S", "Bob", false, false, 5⟩], [], [], 2, 1, 1⟩
      ⟨some "S", "Bob", false, none, none⟩ "X" 9 "S"
      rfl (by decide) (by decide) (by decide) (by decide) (by decide)
      (by decide)).2.1
    ⟨1, "S", "Bob", false, false, 5⟩ (by decide) rfl rfl rfl).trans
    (by rfl)

/-! ## Lemmas about the storage operations -/

theorem filter_filter_of_imp {α : Type} (p q : α → Bool)
    (h : ∀ a, q a = true → p a = true) :
    ∀ l : List α, (l.filter p).filter q = l.filter q := by
  intro l
  induction l with
  | nil => rfl
  | cons a l ih =>
    by_cases hq : q a = true
    · have hp := h a hq
      simp [List.filter_cons, hp, hq, ih]
    · simp only [Bool.not_eq_true] at hq
      by_cases hp : p a = true
      · simp [List.filter_cons, hp, hq, ih]
      · simp only [Bool.not_eq_true] at hp
        simp [List.filter_cons, hp, hq, ih]

theorem updateStoryF_fields (st : Storage) (i : Nat) (f : Story → Story) :
    (updateStoryF st i f).2.sessions = st.sessions ∧
    (updateStoryF st i f).2.votes = st.votes ∧
    (updateStoryF st i f).2.participants = st.participants := by
  rw [updateStoryF]
  cases getStory st i <;> exact ⟨rfl, rfl, rfl⟩

theorem resetVotes_fields (st : Storage) (sid : String) :
    (resetVotes st sid).sessions = st.sessions ∧
    (resetVotes st sid).stories = st.stories ∧
    (resetVotes st sid).votes = st.votes.filter (fun v => v.sessionId != sid) :=
  ⟨rfl, rfl, rfl⟩

theorem getSession_congr (st st2 : Storage) (h : st2.sessions = st.sessions)
    (sid : String) : getSession st2 sid = getSession st sid := by
  rw [getSession, getSession, h]

theorem updateSessionF_found (st : Storage) (sid : String) (f : Session → Session)
    (s : Session) (h : getSession st sid = some s) :
    updateSessionF st sid f =
      (some (f s),
       { st with sessions := st.sessions.map (fun x => if x.id == sid then f x else x) }) := by
  rw [updateSessionF, h]

theorem getSession_map_update (st : Storage) (i : String) (f : Session → Session)
    (hf : ∀ s, (f s).id = s.id) (sid : String) :
    getSession { st with sessions := st.sessions.map (fun x => if x.id == i then f x else x) } sid =
      (getSession st sid).map (fun x => if x.id == i then f x else x) := by
  rw [getSession, getSession]
  exact find?_map_of_pred _ _ st.sessions
    (fun a => by by_cases h : (a.id == i) = true <;> simp [h, hf])

theorem matchingCurrentStory_mem (st : Storage) (sid : String) (session : Session)
    (t : Story) (hm : matchingCurrentStory st sid session = some t) :
    t ∈ st.stories := by
  rw [matchingCurrentStory] at hm
  split at hm
  · split at hm
    · have := List.mem_of_find?_eq_some hm
      rw [getSessionStories] at this
      exact (List.mem_filter.1 this).1
    · cases hm
  · cases hm

/-! ## Claim theorems: reset voting -/

/-- The reset-votes/clear-session tail shared by both branches of the reset
handler: `X` is the store after the (possible) story-completion step. -/
theorem reset_tail_spec (st X : Storage) (sid : String) (session : Session)
    (hXs : X.sessions = st.sessions) (hXv : X.votes = st.votes)
    (hsess : getSession st sid = some session) :
    (updateSessionF (resetVotes X sid) sid
        (fun s => { s with revealed := false, currentStory := none })).1 =
      some { session with revealed := false, currentStory := none } ∧
    getSessionVotes (updateSessionF (resetVotes X sid) sid
        (fun s => { s with revealed := false, currentStory := none })).2 sid = [] ∧
    (∀ sid2, sid2 ≠ sid →
      getSessionVotes (updateSessionF (resetVotes X sid) sid
        (fun s => { s with revealed := false, currentStory := none })).2 sid2 =
      getSessionVotes st sid2) ∧
    getSession (updateSessionF (resetVotes X sid) sid
        (fun s => { s with revealed := false, currentStory := none })).2 sid =
      some { session with revealed := false, currentStory := none } ∧
    (updateSessionF (resetVotes X sid) sid
        (fun s => { s with revealed := false, currentStory := none })).2.stories =
      X.stories := by
  have hsid_eq : session.id = sid := by
    have h : st.sessions.find? (fun s => s.id == sid) = some session := hsess
    have h2 := List.find?_some h
    simpa using h2
  have hsess₂ : getSession (resetVotes X sid) sid = some session := by
    rw [getSession_congr st (resetVotes X sid) hXs sid]
    exact hsess
  have hupd := updateSessionF_found (resetVotes X sid) sid
    (fun s => { s with revealed := false, currentStory := none }) session hsess₂
  refine ⟨?_, ?_, ?_, ?_, ?_⟩
  · rw [hupd]
  · rw [hupd, getSessionVotes]
    show ((X.votes.filter (fun v => v.sessionId != sid)).filter
      (fun v => v.sessionId == sid)) = []
    rw [hXv, List.filter_eq_nil_iff]
    intro v hv
    have hne := (List.mem_filter.1 hv).2
    simp only [bne_iff_ne, ne_eq] at hne
    simp [hne]
  · intro sid2 hne
    rw [hupd, getSessionVotes, getSessionVotes]
    show ((X.votes.filter (fun v => v.sessionId != sid)).filter
        (fun v => v.sessionId == sid2)) = st.votes.filter (fun v => v.sessionId == sid2)
    rw [hXv]
    refine filter_filter_of_imp _ _ ?_ st.votes
    intro v hv
    simp only [beq_iff_eq] at hv
    simp [bne_iff_ne, hv, hne]
  · rw [hupd, getSession_map_update (resetVotes X sid) sid
      (fun s => { s with revealed := false, currentStory := none }) (fun s => rfl) sid,
      hsess₂]
    simp [hsid_eq]
  · rw [hupd]
    rfl

/-- C3: for a bound connection, Reset Voting deletes exactly the session's
votes, clears the session's revealed flag and current story, and whenever a
stored story matches the current-story descriptor (descriptor truthy, parsed
by the regex, first incomplete story with the parsed title), that story is
marked completed. -/
theorem handleResetVoting_spec (st : Storage) (client : ClientConnection)
    (pa : Participant) (sid : String) (session : Session)
    (hpa : client.participant = some pa) (hsid : client.sessionId = some sid)
    (hsess : getSession st sid = some session)
    (hstories : (st.stories.map Story.id).Nodup) :
    ∃ st2, handleResetVoting st client = .ok (st2, client) ∧
      getSessionVotes st2 sid = [] ∧
      (∀ sid2, sid2 ≠ sid → getSessionVotes st2 sid2 = getSessionVotes st sid2) ∧
      getSession st2 sid = some { session with revealed := false, currentStory := none } ∧
      (∀ t, matchingCurrentStory st sid session = some t →
        getStory st2 t.id = some { t with isCompleted := true }) := by
  rcases hm : matchingCurrentStory st sid session with _ | t
  · -- no story is completed: the prefix leaves the store unchanged
    have htail := reset_tail_spec st st sid session rfl rfl hsess
    refine ⟨(updateSessionF (resetVotes st sid) sid
      (fun s => { s with revealed := false, currentStory := none })).2,
      ?_, htail.2.1, htail.2.2.1, htail.2.2.2.1, ?_⟩
    · simp only [handleResetVoting, hpa, hsid, hsess, hm, htail.1]
    · intro t ht
      cases ht
  · -- the matching story is completed first
    have ht_mem : t ∈ st.stories := matchingCurrentStory_mem st sid session t hm
    have hgetT : getStory st t.id = some t :=
      find?_beq_of_nodup_map Story.id t st.stories hstories ht_mem
    have hupdT : updateStoryF st t.id (fun s => { s with isCompleted := true }) =
        (some { t with isCompleted := true },
         { st with stories := st.stories.map (fun x =>
             if x.id == t.id then { x with isCompleted := true } else x) }) := by
      rw [updateStoryF, hgetT]
    have htail := reset_tail_spec st
      (updateStoryF st t.id (fun s => { s with isCompleted := true })).2 sid session
      (updateStoryF_fields st t.id _).1 (updateStoryF_fields st t.id _).2.1 hsess
    refine ⟨(updateSessionF
      (resetVotes (updateStoryF st t.id (fun s => { s with isCompleted := true })).2 sid) sid
      (fun s => { s with revealed := false, currentStory := none })).2,
      ?_, htail.2.1, htail.2.2.1, htail.2.2.2.1, ?_⟩
    · simp only [handleResetVoting, hpa, hsid, hsess, hm, htail.1]
    · intro t2 ht2
      injection ht2 with ht2
      subst ht2
      rw [getStory, htail.2.2.2.2, hupdT]
      show (st.stories.map (fun x =>
          if x.id == t.id then { x with isCompleted := true } else x)).find?
        (fun s => s.id == t.id) = some { t with isCompleted := true }
      rw [find?_map_of_pred _ _ st.stories
        (fun a => by by_cases h : (a.id == t.id) = true <;> simp [h])]
      have hfind : st.stories.find? (fun s => s.id == t.id) = some t := hgetT
      rw [hfind]
      simp

/-- C3 witness: resetting with a current story "T (L)" completes the story,
clears votes, revealed and the current story. -/
theorem handleResetVoting_spec_witness :
    ∃ st2, handleResetVoting
        ⟨[⟨"S", "sess", "Alice", "fibonacci", some "T (L)", true, true, 0⟩],
         [⟨1, "S", "Alice", true, true, 0⟩], [⟨1, "S", "T", "L", false, 0⟩],
         [⟨1, "S", 1, "5", none, 2⟩], 2, 2, 2⟩
        ⟨some ⟨1, "S", "Alice", true, true, 0⟩, some "S"⟩ =
      .ok (st2, ⟨some ⟨1, "S", "Alice", true, true, 0⟩, some "S"⟩) ∧
      getSessionVotes st2 "S" = [] ∧
      (∀ sid2, sid2 ≠ "S" → getSessionVotes st2 sid2 =
        getSessionVotes ⟨[⟨"S", "sess", "Alice", "fibonacci", some "T (L)", true, true, 0⟩],
          [⟨1, "S", "Alice", true, true, 0⟩], [⟨1, "S", "T", "L", false, 0⟩],
          [⟨1, "S", 1, "5", none, 2⟩], 2, 2, 2⟩ sid2) ∧
      getSession st2 "S" = some ⟨"S", "sess", "Alice", "fibonacci", none, true, false, 0⟩ ∧
      (∀ t, matchingCurrentStory
          ⟨[⟨"S", "sess", "Alice", "fibonacci", some "T (L)", true, true, 0⟩],
           [⟨1, "S", "Alice", true, true, 0⟩], [⟨1, "S", "T", "L", false, 0⟩],
           [⟨1, "S", 1, "5", none, 2⟩], 2, 2, 2⟩ "S"
          ⟨"S", "sess", "Alice", "fibonacci", some "T (L)", true, true, 0⟩ = some t →
        getStory st2 t.id = some { t with isCompleted := true }) :=
  handleResetVoting_spec
    ⟨[⟨"S", "sess", "Alice", "fibonacci", some "T (L)", true, true, 0⟩],
     [⟨1, "S", "Alice", true, true, 0⟩], [⟨1, "S", "T", "L", false, 0⟩],
     [⟨1, "S", 1, "5", none, 2⟩], 2, 2, 2⟩
    ⟨some ⟨1, "S", "Alice", true, true, 0⟩, some "S"⟩
    ⟨1, "S", "Alice", true, true, 0⟩ "S"
    ⟨"S", "sess", "Alice", "fibonacci", some "T (L)", true, true, 0⟩
    rfl rfl (by rfl) (by decide)

/-! ## Lemmas about the revealed flag -/

theorem updateParticipantF_fields (st : Storage) (i : Nat) (f : Participant → Participant) :
    (updateParticipantF st i f).2.sessions = st.sessions ∧
    (updateParticipantF st i f).2.votes = st.votes ∧
    (updateParticipantF st i f).2.stories = st.stories := by
  rw [updateParticipantF]
  cases st.participants.find? (fun p => p.id == i) <;> exact ⟨rfl, rfl, rfl⟩

theorem castVote_fields (st : Storage) (v : InsertVote) (now : Nat) :
    (castVote st v now).2.sessions = st.sessions ∧
    (castVote st v now).2.stories = st.stories ∧
    (castVote st v now).2.participants = st.participants := by
  rw [castVote]
  cases getVote st v.participantId v.sessionId <;> exact ⟨rfl, rfl, rfl⟩

theorem storageRevealed_congr (st st2 : Storage) (h : st2.sessions = st.sessions)
    (sid : String) : storageRevealed st2 sid = storageRevealed st sid := by
  rw [storageRevealed, storageRevealed, getSession_congr st st2 h sid]

theorem beq_id_of_getSession (st : Storage) (sid : String) (s : Session)
    (h : getSession st sid = some s) : (s.id == sid) = true := by
  have h1 : st.sessions.find? (fun x => x.id == sid) = some s := h
  have h2 := List.find?_some h1
  simpa using h2

/-- How the revealed flag of an arbitrary session reads after an
`updateSession` whose update keeps the session id. -/
theorem storageRevealed_updateSessionF_cases (st : Storage) (i : String)
    (f : Session → Session) (hid : ∀ s, (f s).id = s.id) (sid : String) :
    storageRevealed (updateSessionF st i f).2 sid = storageRevealed st sid ∨
    (sid = i ∧ ∃ s, getSession st sid = some s ∧
      storageRevealed (updateSessionF st i f).2 sid = (f s).revealed) := by
  rw [updateSessionF]
  cases hgi : getSession st i with
  | none => exact Or.inl rfl
  | some s =>
      by_cases hsidi : sid = i
      · subst hsidi
        refine Or.inr ⟨rfl, s, hgi, ?_⟩
        rw [storageRevealed, getSession_map_update st sid f hid sid, hgi]
        have hseq : s.id = sid := by simpa using beq_id_of_getSession st sid s hgi
        simp [hseq]
      · refine Or.inl ?_
        rw [storageRevealed, storageRevealed, getSession_map_update st i f hid sid]
        cases hgs : getSession st sid with
        | none => rfl
        | some s0 =>
            have hs0 : s0.id = sid := by simpa using beq_id_of_getSession st sid s0 hgs
            simp [hs0, hsidi]

/-- An update that keeps both the id and the revealed flag leaves every
session's revealed reading unchanged. -/
theorem storageRevealed_updateSessionF_pres (st : Storage) (i : String)
    (f : Session → Session) (hid : ∀ s, (f s).id = s.id)
    (hrev : ∀ s, (f s).revealed = s.revealed) (sid : String) :
    storageRevealed (updateSessionF st i f).2 sid = storageRevealed st sid := by
  rcases storageRevealed_updateSessionF_cases st i f hid sid with h | ⟨rfl, s, hgs, heq⟩
  · exact h
  · rw [heq, hrev, storageRevealed, hgs]

/-- An update that sets revealed to false leaves the updated session's
revealed reading false. -/
theorem storageRevealed_updateSessionF_clear (st : Storage) (sid : String)
    (f : Session → Session) (hid : ∀ s, (f s).id = s.id)
    (hrev : ∀ s, (f s).revealed = false) :
    storageRevealed (updateSessionF st sid f).2 sid = false := by
  rw [updateSessionF]
  cases hg : getSession st sid with
  | none => rw [storageRevealed, hg]
  | some s =>
      rw [storageRevealed, getSession_map_update st sid f hid sid, hg]
      have hseq : s.id = sid := by simpa using beq_id_of_getSession st sid s hg
      simp [hseq, hrev]

/-- Appending a session with revealed = false cannot make a revealed reading
true. -/
theorem storageRevealed_append (st : Storage) (s : Session) (sid : String)
    (hrev : s.revealed = false)
    (h : storageRevealed { st with sessions := st.sessions ++ [s] } sid = true) :
    storageRevealed st sid = true := by
  rw [storageRevealed, getSession] at h
  rw [List.find?_append] at h
  rw [storageRevealed, getSession]
  cases hg : st.sessions.find? (fun x => x.id == sid) with
  | some s0 =>
      rw [hg] at h
      simpa using h
  | none =>
      rw [hg] at h
      exfalso
      by_cases hps : (s.id == sid) = true
      · simp [List.find?_cons, hps, hrev] at h
      · simp only [Bool.not_eq_true] at hps
        simp [List.find?_cons, hps] at h

/-- `refreshCurrentStoryDescriptor` never changes any revealed reading. -/
theorem storageRevealed_refresh (st : Storage) (sid0 : String)
    (existingTitle : String) (updatedStory : Story) (sid : String) :
    storageRevealed (refreshCurrentStoryDescriptor st sid0 existingTitle updatedStory) sid =
      storageRevealed st sid := by
  rw [refreshCurrentStoryDescriptor]
  split
  · rfl
  · split
    · split
      · split
        · exact storageRevealed_updateSessionF_pres st sid0
            (fun s => { s with currentStory := some (updatedStory.title ++ " (" ++ updatedStory.link ++ ")") })
            (fun s => rfl) (fun s => rfl) sid
        · rfl
      · rfl
    · rfl

theorem handleLeaveSession_ok_sessions (st : Storage) (c : ClientConnection)
    (st2 : Storage) (c2 : ClientConnection)
    (h : handleLeaveSession st c = Except.ok (st2, c2)) :
    st2.sessions = st.sessions := by
  rw [handleLeaveSession] at h
  split at h
  · rw [Except.ok.injEq, Prod.mk.injEq] at h
    obtain ⟨h1, _⟩ := h
    subst h1
    exact (updateParticipantF_fields _ _ _).1
  · exact Except.noConfusion h

theorem handleCastVote_ok_sessions (st : Storage) (c : ClientConnection)
    (value : String) (now : Nat) (st2 : Storage) (c2 : ClientConnection)
    (h : handleCastVote st c value now = Except.ok (st2, c2)) :
    st2.sessions = st.sessions := by
  rw [handleCastVote] at h
  split at h
  · split at h
    · exact Except.noConfusion h
    · rw [Except.ok.injEq, Prod.mk.injEq] at h
      obtain ⟨h1, _⟩ := h
      subst h1
      exact (castVote_fields _ _ _).1
  · exact Except.noConfusion h

theorem handleAddStory_ok_sessions (st : Storage) (c : ClientConnection)
    (title link : String) (now : Nat) (st2 : Storage) (c2 : ClientConnection)
    (h : handleAddStory st c title link now = Except.ok (st2, c2)) :
    st2.sessions = st.sessions := by
  rw [handleAddStory] at h
  split at h
  · split at h
    · exact Except.noConfusion h
    · split at h
      · exact Except.noConfusion h
      · rw [Except.ok.injEq, Prod.mk.injEq] at h
        obtain ⟨h1, _⟩ := h
        subst h1
        rfl
  · exact Except.noConfusion h

theorem handleJoinSession_ok_sessions (st : Storage) (p : JoinPayload)
    (genId : String) (now : Nat) (st2 : Storage) (c2 : ClientConnection)
    (h : handleJoinSession st p genId now = Except.ok (st2, c2)) :
    st2.sessions = st.sessions ∨
    ∃ s : Session, s.revealed = false ∧ st2.sessions = st.sessions ++ [s] := by
  simp only [handleJoinSession] at h
  split at h
  · exact Except.noConfusion h
  split at h
  · -- create-session branch
    split at h
    · split at h
      · exact Except.noConfusion h
      · rw [Except.ok.injEq, Prod.mk.injEq] at h
        obtain ⟨h1, _⟩ := h
        subst h1
        exact Or.inr ⟨_, rfl, rfl⟩
    · exact Except.noConfusion h
  · -- join-existing branch
    split at h
    · exact Except.noConfusion h
    split at h
    · exact Except.noConfusion h
    split at h
    · split at h
      · exact Except.noConfusion h
      · rw [Except.ok.injEq, Prod.mk.injEq] at h
        obtain ⟨h1, _⟩ := h
        subst h1
        exact Or.inl (updateParticipantF_fields _ _ _).1
    · rw [Except.ok.injEq, Prod.mk.injEq] at h
      obtain ⟨h1, _⟩ := h
      subst h1
      exact Or.inl rfl

theorem handleRevealVotes_ok_revealed (st : Storage) (c : ClientConnection)
    (st2 : Storage) (c2 : ClientConnection)
    (h : handleRevealVotes st c = Except.ok (st2, c2)) (sid : String)
    (hrev : storageRevealed st2 sid = true) :
    storageRevealed st sid = true ∨
      (c.sessionId = some sid ∧ c.participant.isSome = true) := by
  obtain ⟨cp, cs⟩ := c
  cases cp with
  | none => simp only [handleRevealVotes] at h; exact Except.noConfusion h
  | some pa =>
    cases cs with
    | none => simp only [handleRevealVotes] at h; exact Except.noConfusion h
    | some sid0 =>
      simp only [handleRevealVotes] at h
      split at h
      · exact Except.noConfusion h
      rw [Except.ok.injEq, Prod.mk.injEq] at h
      obtain ⟨h1, _⟩ := h
      subst h1
      rcases storageRevealed_updateSessionF_cases st sid0
        (fun s => { s with revealed := true }) (fun s => rfl) sid with hc | ⟨hseq, _⟩
      · rw [hc] at hrev
        exact Or.inl hrev
      · exact Or.inr ⟨by rw [hseq], rfl⟩

theorem handleResetVoting_ok_revealed (st : Storage) (c : ClientConnection)
    (st2 : Storage) (c2 : ClientConnection)
    (h : handleResetVoting st c = Except.ok (st2, c2)) (sid : String) :
    (storageRevealed st2 sid = true → storageRevealed st sid = true) ∧
    (c.sessionId = some sid → storageRevealed st2 sid = false) := by
  obtain ⟨cp, cs⟩ := c
  cases cp with
  | none => simp only [handleResetVoting] at h; exact Except.noConfusion h
  | some pa =>
    cases cs with
    | none => simp only [handleResetVoting] at h; exact Except.noConfusion h
    | some sid0 =>
      simp only [handleResetVoting] at h
      split at h
      · exact Except.noConfusion h
      rename_i session hsess
      rcases hm : matchingCurrentStory st sid0 session with _ | t <;>
        simp only [hm] at h
      · -- no story completed
        split at h
        · exact Except.noConfusion h
        rw [Except.ok.injEq, Prod.mk.injEq] at h
        obtain ⟨h1, _⟩ := h
        subst h1
        constructor
        · intro hrev
          rcases storageRevealed_updateSessionF_cases (resetVotes st sid0) sid0
            (fun s => { s with revealed := false, currentStory := none })
            (fun s => rfl) sid with hc | ⟨hseq, s, hgs, heq⟩
          · rw [hc] at hrev
            exact hrev
          · rw [heq] at hrev
            exact absurd hrev (by simp)
        · intro hsid
          have hsideq : sid0 = sid := by injection hsid
          subst hsideq
          exact storageRevealed_updateSessionF_clear (resetVotes st sid0) sid0 _
            (fun s => rfl) (fun s => rfl)
      · -- story t completed first
        split at h
        · exact Except.noConfusion h
        rw [Except.ok.injEq, Prod.mk.injEq] at h
        obtain ⟨h1, _⟩ := h
        subst h1
        constructor
        · intro hrev
          rcases storageRevealed_updateSessionF_cases
            (resetVotes (updateStoryF st t.id (fun s => { s with isCompleted := true })).2 sid0)
            sid0 (fun s => { s with revealed := false, currentStory := none })
            (fun s => rfl) sid with hc | ⟨hseq, s, hgs, heq⟩
          · rw [hc] at hrev
            have hrev2 : storageRevealed
                (updateStoryF st t.id (fun s => { s with isCompleted := true })).2 sid = true := hrev
            rw [storageRevealed_congr st _ (updateStoryF_fields st _ _).1 sid] at hrev2
            exact hrev2
          · rw [heq] at hrev
            exact absurd hrev (by simp)
        · intro hsid
          have hsideq : sid0 = sid := by injection hsid
          subst hsideq
          exact storageRevealed_updateSessionF_clear _ sid0 _
            (fun s => rfl) (fun s => rfl)

theorem handleSetCurrentStory_ok_revealed (st : Storage) (c : ClientConnection)
    (storyId : Nat) (st2 : Storage) (c2 : ClientConnection)
    (h : handleSetCurrentStory st c storyId = Except.ok (st2, c2)) (sid : String) :
    (storageRevealed st2 sid = true → storageRevealed st sid = true) ∧
    (c.sessionId = some sid → storageRevealed st2 sid = false) := by
  obtain ⟨cp, cs⟩ := c
  cases cp with
  | none => simp only [handleSetCurrentStory] at h; exact Except.noConfusion h
  | some pa =>
    cases cs with
    | none => simp only [handleSetCurrentStory] at h; exact Except.noConfusion h
    | some sid0 =>
      simp only [handleSetCurrentStory] at h
      split at h
      · exact Except.noConfusion h
      split at h
      · exact Except.noConfusion h
      rename_i story hstory
      split at h
      · exact Except.noConfusion h
      split at h
      · exact Except.noConfusion h
      rw [Except.ok.injEq, Prod.mk.injEq] at h
      obtain ⟨h1, _⟩ := h
      subst h1
      constructor
      · intro hrev
        have hrev2 : storageRevealed (updateSessionF st sid0 (fun s => { s with currentStory := some (story.title ++ " (" ++ story.link ++ ")"), revealed := false })).2 sid = true := hrev
        rcases storageRevealed_updateSessionF_cases st sid0 (fun s => { s with currentStory := some (story.title ++ " (" ++ story.link ++ ")"), revealed := false }) (fun s => rfl) sid with hc | ⟨hseq, s, hgs, heq⟩
        · rw [hc] at hrev2
          exact hrev2
        · rw [heq] at hrev2
          exact absurd hrev2 (by simp)
      · intro hsid
        have hsideq : sid0 = sid := by injection hsid
        subst hsideq
        show storageRevealed (updateSessionF st sid0 (fun s => { s with currentStory := some (story.title ++ " (" ++ story.link ++ ")"), revealed := false })).2 sid0 = false
        exact storageRevealed_updateSessionF_clear st sid0 _ (fun s => rfl) (fun s => rfl)

theorem handleUpdateStory_ok_revealed (st : Storage) (c : ClientConnection)
    (storyId : Nat) (title link : String) (st2 : Storage) (c2 : ClientConnection)
    (h : handleUpdateStory st c storyId title link = Except.ok (st2, c2)) (sid : String) :
    storageRevealed st2 sid = storageRevealed st sid := by
  obtain ⟨cp, cs⟩ := c
  cases cp with
  | none => simp only [handleUpdateStory] at h; exact Except.noConfusion h
  | some pa =>
    cases cs with
    | none => simp only [handleUpdateStory] at h; exact Except.noConfusion h
    | some sid0 =>
      simp only [handleUpdateStory] at h
      split at h
      · exact Except.noConfusion h
      split at h
      · exact Except.noConfusion h
      split at h
      · exact Except.noConfusion h
      rename_i story hstory
      split at h
      · exact Except.noConfusion h
      split at h
      · exact Except.noConfusion h
      rw [Except.ok.injEq, Prod.mk.injEq] at h
      obtain ⟨h1, _⟩ := h
      subst h1
      rw [storageRevealed_refresh]
      exact storageRevealed_congr st _ (updateStoryF_fields _ _ _).1 sid

theorem handleSetStory_ok_revealed (st : Storage) (c : ClientConnection)
    (story : String) (storyId : Option Nat) (update : Bool)
    (st2 : Storage) (c2 : ClientConnection)
    (h : handleSetStory st c story storyId update = Except.ok (st2, c2)) (sid : String) :
    (storageRevealed st2 sid = true → storageRevealed st sid = true) ∧
    ((update && storyIdTruthy storyId) = false →
      c.sessionId = some sid → storageRevealed st2 sid = false) := by
  obtain ⟨cp, cs⟩ := c
  cases cp with
  | none => simp only [handleSetStory] at h; exact Except.noConfusion h
  | some pa =>
    cases cs with
    | none => simp only [handleSetStory] at h; exact Except.noConfusion h
    | some sid0 =>
      simp only [handleSetStory] at h
      split at h
      · exact Except.noConfusion h
      split at h
      · -- story-update branch
        rename_i hcond
        split at h
        · exact Except.noConfusion h
        rename_i existingStory hexisting
        split at h
        · exact Except.noConfusion h
        split at h
        · exact Except.noConfusion h
        split at h
        · exact Except.noConfusion h
        rw [Except.ok.injEq, Prod.mk.injEq] at h
        obtain ⟨h1, _⟩ := h
        subst h1
        constructor
        · intro hrev
          rw [storageRevealed_refresh] at hrev
          rw [storageRevealed_congr st _ (updateStoryF_fields _ _ _).1 sid] at hrev
          exact hrev
        · intro hfalse
          rw [hcond] at hfalse
          exact absurd hfalse (by simp)
      · -- regular branch
        split at h
        · exact Except.noConfusion h
        rw [Except.ok.injEq, Prod.mk.injEq] at h
        obtain ⟨h1, _⟩ := h
        subst h1
        constructor
        · intro hrev
          have hrev2 : storageRevealed (updateSessionF st sid0 (fun s => { s with currentStory := some story, revealed := false })).2 sid = true := hrev
          rcases storageRevealed_updateSessionF_cases st sid0 (fun s => { s with currentStory := some story, revealed := false }) (fun s => rfl) sid with hc | ⟨hseq, s, hgs, heq⟩
          · rw [hc] at hrev2
            exact hrev2
          · rw [heq] at hrev2
            exact absurd hrev2 (by simp)
        · intro _ hsid
          have hsideq : sid0 = sid := by injection hsid
          subst hsideq
          show storageRevealed (updateSessionF st sid0 (fun s => { s with currentStory := some story, revealed := false })).2 sid0 = false
          exact storageRevealed_updateSessionF_clear st sid0 _ (fun s => rfl) (fun s => rfl)

/-- Eliminator for `withClient`: either the state is unchanged or some bound
client's handler succeeded. -/
theorem sessionRevealed_withClient {P : Prop} (st : ServerState) (conn : Nat)
    (hh : ClientConnection → Except String (Storage × ClientConnection)) (sid : String)
    (hbase : sessionRevealed st sid = true → P)
    (hok : ∀ c stg c2, findClient st.clients conn = some c →
      hh c = Except.ok (stg, c2) → storageRevealed stg sid = true → P)
    (h : sessionRevealed (withClient st conn hh) sid = true) : P := by
  rw [withClient] at h
  split at h
  · exact hbase h
  rename_i c hc
  split at h
  · exact hbase h
  rename_i r hr
  exact hok c r.1 r.2 hc hr h

/-- `withClient` on a found client with a succeeding handler installs the
handler's state. -/
theorem withClient_ok_state (st : ServerState) (conn : Nat)
    (hh : ClientConnection → Except String (Storage × ClientConnection))
    (c : ClientConnection) (stg : Storage) (c2 : ClientConnection)
    (hc : findClient st.clients conn = some c) (hok : hh c = Except.ok (stg, c2)) :
    withClient st conn hh = ⟨stg, setClient st.clients conn c2⟩ := by
  rw [withClient, hc]
  show (match hh c with
    | .error _ => st
    | .ok r => (⟨r.1, setClient st.clients conn r.2⟩ : ServerState)) = _
  rw [hok]

/-- Step lemma: the only event that can turn a session's revealed flag from
false to true is a Reveal Votes on a connection bound to that session. -/
theorem applyEvent_revealed_true (now : Nat) (st : ServerState) (e : Event) (sid : String)
    (h : sessionRevealed (applyEvent now st e) sid = true) :
    sessionRevealed st sid = true ∨ RevealStep st e sid := by
  cases e with
  | connect conn => exact Or.inl h
  | getStories conn => exact Or.inl h
  | disconnect conn =>
      refine Or.inl ?_
      simp only [applyEvent] at h
      split at h
      · exact h
      split at h
      · rw [sessionRevealed] at h ⊢
        rw [← storageRevealed_congr st.storage _ (updateParticipantF_fields _ _ _).1 sid]
        exact h
      · exact h
  | joinSession conn p genId =>
      simp only [applyEvent] at h
      refine Or.inl (sessionRevealed_withClient st conn _ sid (fun hb => hb) ?_ h)
      intro c stg c2 hc hok hrev
      rcases handleJoinSession_ok_sessions st.storage p genId now stg c2 hok with
        hs | ⟨s, hsrev, hs⟩
      · rw [sessionRevealed, ← storageRevealed_congr st.storage stg hs sid]
        exact hrev
      · rw [sessionRevealed]
        refine storageRevealed_append st.storage s sid hsrev ?_
        have hs2 : stg.sessions =
            ({ st.storage with sessions := st.storage.sessions ++ [s] } : Storage).sessions := hs
        rw [← storageRevealed_congr _ stg hs2 sid]
        exact hrev
  | leaveSession conn =>
      simp only [applyEvent] at h
      refine Or.inl (sessionRevealed_withClient st conn _ sid (fun hb => hb) ?_ h)
      intro c stg c2 hc hok hrev
      rw [sessionRevealed, ← storageRevealed_congr st.storage stg
        (handleLeaveSession_ok_sessions _ _ _ _ hok) sid]
      exact hrev
  | castVoteEv conn value =>
      simp only [applyEvent] at h
      refine Or.inl (sessionRevealed_withClient st conn _ sid (fun hb => hb) ?_ h)
      intro c stg c2 hc hok hrev
      rw [sessionRevealed, ← storageRevealed_congr st.storage stg
        (handleCastVote_ok_sessions _ _ _ _ _ _ hok) sid]
      exact hrev
  | addStoryEv conn title link =>
      simp only [applyEvent] at h
      refine Or.inl (sessionRevealed_withClient st conn _ sid (fun hb => hb) ?_ h)
      intro c stg c2 hc hok hrev
      rw [sessionRevealed, ← storageRevealed_congr st.storage stg
        (handleAddStory_ok_sessions _ _ _ _ _ _ _ hok) sid]
      exact hrev
  | revealVotes conn =>
      simp only [applyEvent] at h
      refine sessionRevealed_withClient st conn _ sid (fun hb => Or.inl hb) ?_ h
      intro c stg c2 hc hok hrev
      rcases handleRevealVotes_ok_revealed st.storage c stg c2 hok sid hrev with
        hpre | ⟨hcs, hcp⟩
      · exact Or.inl hpre
      · exact Or.inr ⟨conn, c, rfl, hc, hcs, hcp⟩
  | resetVoting conn =>
      simp only [applyEvent] at h
      refine Or.inl (sessionRevealed_withClient st conn _ sid (fun hb => hb) ?_ h)
      intro c stg c2 hc hok hrev
      exact (handleResetVoting_ok_revealed st.storage c stg c2 hok sid).1 hrev
  | setStory conn story storyId update =>
      simp only [applyEvent] at h
      refine Or.inl (sessionRevealed_withClient st conn _ sid (fun hb => hb) ?_ h)
      intro c stg c2 hc hok hrev
      exact (handleSetStory_ok_revealed st.storage c story storyId update stg c2 hok sid).1 hrev
  | setCurrentStory conn storyId =>
      simp only [applyEvent] at h
      refine Or.inl (sessionRevealed_withClient st conn _ sid (fun hb => hb) ?_ h)
      intro c stg c2 hc hok hrev
      exact (handleSetCurrentStory_ok_revealed st.storage c storyId stg c2 hok sid).1 hrev
  | updateStoryEv conn storyId title link =>
      simp only [applyEvent] at h
      refine Or.inl (sessionRevealed_withClient st conn _ sid (fun hb => hb) ?_ h)
      intro c stg c2 hc hok hrev
      rw [handleUpdateStory_ok_revealed st.storage c storyId title link stg c2 hok sid] at hrev
      exact hrev

theorem applyEvent_resetVoting_clears (now : Nat) (st : ServerState) (conn : Nat)
    (c : ClientConnection) (stg : Storage) (c2 : ClientConnection) (sid : String)
    (hc : findClient st.clients conn = some c)
    (hok : handleResetVoting st.storage c = Except.ok (stg, c2))
    (hcs : c.sessionId = some sid) :
    sessionRevealed (applyEvent now st (Event.resetVoting conn)) sid = false := by
  have hw := withClient_ok_state st conn (fun c => handleResetVoting st.storage c)
    c stg c2 hc hok
  simp only [applyEvent, hw]
  exact (handleResetVoting_ok_revealed st.storage c stg c2 hok sid).2 hcs

theorem applyEvent_setCurrentStory_clears (now : Nat) (st : ServerState) (conn : Nat)
    (storyId : Nat) (c : ClientConnection) (stg : Storage) (c2 : ClientConnection)
    (sid : String) (hc : findClient st.clients conn = some c)
    (hok : handleSetCurrentStory st.storage c storyId = Except.ok (stg, c2))
    (hcs : c.sessionId = some sid) :
    sessionRevealed (applyEvent now st (Event.setCurrentStory conn storyId)) sid = false := by
  have hw := withClient_ok_state st conn
    (fun c => handleSetCurrentStory st.storage c storyId) c stg c2 hc hok
  simp only [applyEvent, hw]
  exact (handleSetCurrentStory_ok_revealed st.storage c storyId stg c2 hok sid).2 hcs

theorem applyEvent_setStory_clears (now : Nat) (st : ServerState) (conn : Nat)
    (story : String) (storyId : Option Nat) (update : Bool)
    (c : ClientConnection) (stg : Storage) (c2 : ClientConnection) (sid : String)
    (hc : findClient st.clients conn = some c)
    (hok : handleSetStory st.storage c story storyId update = Except.ok (stg, c2))
    (hreg : (update && storyIdTruthy storyId) = false)
    (hcs : c.sessionId = some sid) :
    sessionRevealed (applyEvent now st (Event.setStory conn story storyId update)) sid = false := by
  have hw := withClient_ok_state st conn
    (fun c => handleSetStory st.storage c story storyId update) c stg c2 hc hok
  simp only [applyEvent, hw]
  exact (handleSetStory_ok_revealed st.storage c story storyId update stg c2 hok sid).2
    hreg hcs

theorem runEvents_concat (now : Nat) (st : ServerState) (evs : List Event) (e : Event) :
    runEvents now st (evs ++ [e]) = applyEvent now (runEvents now st evs) e := by
  rw [runEvents, runEvents, List.foldl_append]
  rfl

/-- Trace lemma: in a run that starts with the session not revealed and ends
with it revealed, some Reveal Votes step (on a connection bound to the
session at that point) occurred, and the flag stays true from that step to
the end — every later reset/selection either failed or targeted another
session. -/
theorem revealed_requires_reveal_trace (now : Nat) (st0 : ServerState) (sid : String) :
    ∀ evs : List Event, sessionRevealed st0 sid = false →
      sessionRevealed (runEvents now st0 evs) sid = true →
      ∃ i, i < evs.length ∧
        RevealStep (runEvents now st0 (evs.take i)) (evs.getD i (Event.getStories 0)) sid ∧
        ∀ j, i ≤ j → j < evs.length →
          sessionRevealed (runEvents now st0 (evs.take (j + 1))) sid = true := by
  intro evs
  induction evs using List.reverseRecOn with
  | nil =>
      intro h0 h1
      exact absurd (h0.symm.trans h1) (by simp)
  | append_singleton evs e ih =>
      intro h0 h1
      rw [runEvents_concat] at h1
      rcases applyEvent_revealed_true now (runEvents now st0 evs) e sid h1 with hpre | hrev
      · obtain ⟨i, hilen, hstep, hall⟩ := ih h0 hpre
        refine ⟨i, ?_, ?_, ?_⟩
        · rw [List.length_append, List.length_singleton]
          omega
        · rw [List.take_append_of_le_length (le_of_lt hilen),
            List.getD_append _ _ _ _ hilen]
          exact hstep
        · intro j hij hjlen
          rw [List.length_append, List.length_singleton] at hjlen
          by_cases hj : j < evs.length
          · rw [List.take_append_of_le_length (by omega)]
            exact hall j hij hj
          · have hje : j = evs.length := by omega
            subst hje
            rw [show (evs ++ [e]).take (evs.length + 1) = evs ++ [e] from
              List.take_of_length_le (by rw [List.length_append, List.length_singleton])]
            rw [runEvents_concat]
            exact h1
      · refine ⟨evs.length, ?_, ?_, ?_⟩
        · rw [List.length_append, List.length_singleton]
          omega
        · rw [List.take_append_of_le_length (le_refl _), List.take_length,
            List.getD_append_right _ _ _ _ (le_refl _)]
          simpa using hrev
        · intro j hij hjlen
          rw [List.length_append, List.length_singleton] at hjlen
          have hje : j = evs.length := by omega
          subst hje
          rw [show (evs ++ [e]).take (evs.length + 1) = evs ++ [e] from
            List.take_of_length_le (by rw [List.length_append, List.length_singleton])]
          rw [runEvents_concat]
          exact h1

/-! ## Claim theorems: the revealed flag -/

/-- C4: in the protocol state machine, Reveal Votes is the only event that
sets a session's revealed flag to true (any step that leaves it true either
found it true or was a Reveal on a connection bound to the session); Reset
Voting, Set Current Story, and the regular Set Story path, when they apply,
leave it false; hence on any trace ending revealed there is a Reveal step
after which the flag stays true — i.e. occurring after the most recent
effective reset or story selection for that session. -/
theorem revealed_only_by_reveal :
    (∀ now st e sid, sessionRevealed (applyEvent now st e) sid = true →
      sessionRevealed st sid = true ∨ RevealStep st e sid) ∧
    (∀ now st conn c stg c2 sid, findClient (ServerState.clients st) conn = some c →
      handleResetVoting (ServerState.storage st) c = Except.ok (stg, c2) →
      c.sessionId = some sid →
      sessionRevealed (applyEvent now st (Event.resetVoting conn)) sid = false) ∧
    (∀ now st conn storyId c stg c2 sid, findClient (ServerState.clients st) conn = some c →
      handleSetCurrentStory (ServerState.storage st) c storyId = Except.ok (stg, c2) →
      c.sessionId = some sid →
      sessionRevealed (applyEvent now st (Event.setCurrentStory conn storyId)) sid = false) ∧
    (∀ now st conn story storyId update c stg c2 sid,
      findClient (ServerState.clients st) conn = some c →
      handleSetStory (ServerState.storage st) c story storyId update = Except.ok (stg, c2) →
      (update && storyIdTruthy storyId) = false → c.sessionId = some sid →
      sessionRevealed (applyEvent now st (Event.setStory conn story storyId update)) sid = false) ∧
    (∀ now st0 sid evs, sessionRevealed st0 sid = false →
      sessionRevealed (runEvents now st0 evs) sid = true →
      ∃ i, i < evs.length ∧
        RevealStep (runEvents now st0 (evs.take i)) (evs.getD i (Event.getStories 0)) sid ∧
        ∀ j, i ≤ j → j < evs.length →
          sessionRevealed (runEvents now st0 (evs.take (j + 1))) sid = true) := by
  refine ⟨applyEvent_revealed_true, ?_, ?_, ?_, ?_⟩
  · intro now st conn c stg c2 sid hc hok hcs
    exact applyEvent_resetVoting_clears now st conn c stg c2 sid hc hok hcs
  · intro now st conn storyId c stg c2 sid hc hok hcs
    exact applyEvent_setCurrentStory_clears now st conn storyId c stg c2 sid hc hok hcs
  · intro now st conn story storyId update c stg c2 sid hc hok hreg hcs
    exact applyEvent_setStory_clears now st conn story storyId update c stg c2 sid hc hok hreg hcs
  · intro now st0 sid evs h0 h1
    exact revealed_requires_reveal_trace now st0 sid evs h0 h1

/-- C4 witness: a bound admin reveals; the trace conjunct of the theorem
produces the reveal step on the one-event trace. -/
theorem revealed_only_by_reveal_witness :
    ∃ i, i < [Event.revealVotes 0].length ∧
      RevealStep (runEvents 9
        ⟨⟨[⟨"S", "sess", "Alice", "fibonacci", some "", true, false, 0⟩],
          [⟨1, "S", "Alice", true, true, 0⟩], [], [], 2, 1, 1⟩,
         [(0, ⟨some ⟨1, "S", "Alice", true, true, 0⟩, some "S"⟩)]⟩
        ([Event.revealVotes 0].take i))
        ([Event.revealVotes 0].getD i (Event.getStories 0)) "S" ∧
      ∀ j, i ≤ j → j < [Event.revealVotes 0].length →
        sessionRevealed (runEvents 9
          ⟨⟨[⟨"S", "sess", "Alice", "fibonacci", some "", true, false, 0⟩],
            [⟨1, "S", "Alice", true, true, 0⟩], [], [], 2, 1, 1⟩,
           [(0, ⟨some ⟨1, "S", "Alice", true, true, 0⟩, some "S"⟩)]⟩
          ([Event.revealVotes 0].take (j + 1))) "S" = true :=
  revealed_only_by_reveal.2.2.2.2 9
    ⟨⟨[⟨"S", "sess", "Alice", "fibonacci", some "", true, false, 0⟩],
      [⟨1, "S", "Alice", true, true, 0⟩], [], [], 2, 1, 1⟩,
     [(0, ⟨some ⟨1, "S", "Alice", true, true, 0⟩, some "S"⟩)]⟩
    "S" [Event.revealVotes 0] (by decide) (by decide)

end ScrumPointPlanner
